import Mathlib

/-!
Verification of the zircon Raman spectral preprocessing pipeline
(`batch_raman_backup_v7.0.py`) against its natural-language specification.

The Python source is shallowly embedded: pure numeric code becomes Lean
functions over `ℚ` (exact rationals standing for the float values), and the
transcendental operations of numpy (`np.std`/`pandas.std` via `Real.sqrt`,
`np.exp` via `Real.exp`) are embedded over `ℝ`.  External scipy/numpy solver
kernels (`scipy.sparse.linalg.spsolve`, `scipy.optimize.curve_fit`,
`scipy.interpolate.UnivariateSpline`, `np.polyfit`, `scipy.signal.find_peaks`)
are abstracted as function parameters: they are external collaborators of the
repository, and no claim below depends on the values they return, only on how
the repository's own code routes, guards and combines those values.
-/

namespace Zircon

/-! ## Basic list statistics (numpy / pandas helpers used by the source) -/

/-- Sum-based mean of a list of rationals (`np.mean` / `Series.mean`). -/
def qmean (l : List ℚ) : ℚ := l.sum / l.length

/-- Population variance (`np.var`, `np.std(...)**2`, ddof = 0). -/
def popVar (l : List ℚ) : ℚ :=
  (l.map (fun v => (v - qmean l) ^ 2)).sum / l.length

/-- Sample variance (`pandas.Series.std(...)**2`, ddof = 1). -/
def sampleVar (l : List ℚ) : ℚ :=
  (l.map (fun v => (v - qmean l) ^ 2)).sum / ((l.length : ℚ) - 1)

/-- Population standard deviation `np.std` (used on the airPLS residuals). -/
noncomputable def pstd (l : List ℚ) : ℝ := Real.sqrt (popVar l)

/-- Sample standard deviation `pandas.Series.std` (used by the outlier
z-score criterion). -/
noncomputable def sstd (l : List ℚ) : ℝ := Real.sqrt (sampleVar l)

/-- Minimum of a list (`np.min`), with 0 for the empty list. -/
def minD (l : List ℚ) : ℚ :=
  match l with
  | [] => 0
  | h :: t => t.foldl min h

/-- Maximum of a list (`np.max`), with 0 for the empty list. -/
def maxD (l : List ℚ) : ℚ :=
  match l with
  | [] => 0
  | h :: t => t.foldl max h

/-! ## Region Classifier (`get_zircon_spectral_regions`, `is_peak_in_region`) -/

/-- A spectral region: name, `(min_wave, max_wave, is_inclusive)` exactly as
in the dictionary returned by `get_zircon_spectral_regions`. -/
structure SpectralRegion where
  name : String
  min_wave : ℚ
  max_wave : ℚ
  is_inclusive : Bool
deriving DecidableEq, Repr

/-- The seven fixed zircon spectral regions (`get_zircon_spectral_regions`,
in the source's dictionary order). -/
def get_zircon_spectral_regions : List SpectralRegion :=
  [ ⟨"ν₃(SiO₄)", 990, 1020, true⟩,
    ⟨"ν₁(SiO₄)", 965, 985, true⟩,
    ⟨"ν₂(SiO₄)", 430, 450, true⟩,
    ⟨"External mode 1", 195, 210, false⟩,
    ⟨"External mode 2", 210, 220, false⟩,
    ⟨"External mode 3", 220, 230, false⟩,
    ⟨"External mode 4", 350, 365, true⟩ ]

/-- `is_peak_in_region`: closed interval when `is_inclusive`, half-open
`[min, max)` otherwise. -/
def is_peak_in_region (center_value min_wave max_wave : ℚ)
    (is_inclusive : Bool) : Bool :=
  if is_inclusive then
    decide (min_wave ≤ center_value ∧ center_value ≤ max_wave)
  else
    decide (min_wave ≤ center_value ∧ center_value < max_wave)

/-- Membership of a center in one of the seven regions. -/
def inRegion (r : SpectralRegion) (c : ℚ) : Bool :=
  is_peak_in_region c r.min_wave r.max_wave r.is_inclusive

/-- The regions a given center belongs to. -/
def matchingRegions (c : ℚ) : List SpectralRegion :=
  get_zircon_spectral_regions.filter (fun r => inRegion r c)

/-- A center is classified when at least one region test succeeds. -/
def isClassified (c : ℚ) : Bool :=
  get_zircon_spectral_regions.any (fun r => inRegion r c)

/-- Number of peaks of a list of centers falling in region `r`. -/
def regionCount (r : SpectralRegion) (centers : List ℚ) : ℕ :=
  centers.countP (fun c => inRegion r c)

/-- Number of peaks matching no region ("unclassified"). -/
def unclassifiedCount (centers : List ℚ) : ℕ :=
  centers.countP (fun c => !isClassified c)

/-! ## Radiation-Damage Classifier (`categorize_radiation_damage`) -/

/-- Dose estimate `Ded = -0.1402 + 0.07683 × FWHM` (Ginster et al. 2019
calibration, line 2735 of the source). -/
def estimated_dose (fwhm : ℚ) : ℚ := -(1402/10000) + (7683/100000) * fwhm

/-- Damage category by the FWHM thresholds of `categorize_radiation_damage`. -/
def damage_category (fwhm : ℚ) : String :=
  if fwhm ≤ 8 then "Baixo dano"
  else if fwhm ≤ 29/2 then "Dano moderado"
  else if fwhm ≤ 25 then "Alto dano"
  else "Quase amorfo"

/-- `categorize_radiation_damage` returns the pair (category, dose). -/
def categorize_radiation_damage (fwhm : ℚ) : String × ℚ :=
  (damage_category fwhm, estimated_dose fwhm)

/-! ## Spectrum preconditioning in `process_file` (lines 4266-4280)

A raw spectrum cell is a float that may be NaN; we model a cell as
`Option ℚ` with `none` standing for NaN. -/

/-- Number of NaN cells (`np.isnan(y).sum()`). -/
def nanCount (y : List (Option ℚ)) : ℕ := y.countP (fun v => v.isNone)

/-- `np.count_nonzero(y)`: NaN compares as nonzero in numpy. -/
def countNonzero (y : List (Option ℚ)) : ℕ :=
  y.countP (fun v => v ≠ some 0)

/-- The data-quality guard of `process_file` (line 4268): the column is
skipped when NaNs exceed half the length or nonzeros are fewer than half. -/
def qualityCheckPasses (y : List (Option ℚ)) : Bool :=
  !(decide ((nanCount y : ℚ) > 1/2 * y.length) ||
    decide ((countNonzero y : ℚ) < 1/2 * y.length))

/-- `np.nan_to_num(y, nan=0.0)` (line 4273). -/
def nan_to_num (y : List (Option ℚ)) : List ℚ := y.map (fun v => v.getD 0)

/-- Lines 4273-4277 of `process_file`: replace NaN with 0 and, if any value
is negative, shift the whole spectrum by its minimum. -/
def preconditionSpectrum (y : List (Option ℚ)) : List ℚ :=
  let y1 := nan_to_num y
  if y1.any (fun v => decide (v < 0)) then y1.map (fun v => v - minD y1)
  else y1

/-! ## Outlier Detector (`detect_and_remove_outliers`, lines 2938-3120)

A `ResultTable` row carries the three columns the detector reads
(`Centro`, `R2`, `FWHM_Gauss`); rows are tagged with their pandas index
label (unique per table), since removal (`DataFrame.drop`) is by label. -/

structure PeakRow where
  centro : ℚ
  r2 : ℚ
  fwhm : ℚ
deriving DecidableEq, Repr

/-- A labelled row: (pandas index label, row). -/
abbrev LRow := ℕ × PeakRow

/-- Linear-interpolation quantile (`pandas.Series.quantile`, default
`interpolation='linear'`): on the sorted values, position `q·(n−1)`. -/
def quantileLinear (l : List ℚ) (q : ℚ) : ℚ :=
  let s := l.insertionSort (· ≤ ·)
  let h : ℚ := q * ((l.length : ℚ) - 1)
  let i : ℕ := (⌊h⌋).toNat
  let f : ℚ := h - (i : ℚ)
  if i + 1 < l.length then s.getD i 0 + f * (s.getD (i + 1) 0 - s.getD i 0)
  else s.getD i 0

/-- The FWHM column of a region group. -/
def fwhms (g : List LRow) : List ℚ := g.map (fun p => p.2.fwhm)

/-- Criterion 1 (line 2958): fit quality, `R² < 0.3`. -/
def poorFitP (p : LRow) : Prop := p.2.r2 < 3/10

/-- Criterion 2 (lines 2971-2978): IQR on FWHM, needs ≥ 4 points. -/
def iqrP (g : List LRow) (p : LRow) : Prop :=
  4 ≤ (fwhms g).length ∧
    (p.2.fwhm < quantileLinear (fwhms g) (1/4) -
        3/2 * (quantileLinear (fwhms g) (3/4) - quantileLinear (fwhms g) (1/4)) ∨
     p.2.fwhm > quantileLinear (fwhms g) (3/4) +
        3/2 * (quantileLinear (fwhms g) (3/4) - quantileLinear (fwhms g) (1/4)))

/-- Criterion 3 (lines 2990-2992): modified z-score on FWHM, needs ≥ 3
points and a nonzero sample standard deviation. -/
def zscoreP (g : List LRow) (p : LRow) : Prop :=
  (3 ≤ (fwhms g).length ∧ 0 < sstd (fwhms g)) ∧
    3 < |(p.2.fwhm : ℝ) - (qmean (fwhms g) : ℝ)| / sstd (fwhms g)

/-- Criterion 4 (line 3005): physically implausible FWHM > 60 cm⁻¹. -/
def extremeP (p : LRow) : Prop := 60 < p.2.fwhm

/-- A row is flagged in its region when any of the four criteria holds
(the code unions the four index sets). -/
def flaggedP (g : List LRow) (p : LRow) : Prop :=
  poorFitP p ∨ iqrP g p ∨ zscoreP g p ∨ extremeP p

/-- The rows of the input table falling in region `r` (lines 2940-2945;
the mask is always computed on the original `results_df`). -/
def regionGroup (T : List LRow) (r : SpectralRegion) : List LRow :=
  T.filter (fun p => inRegion r p.2.centro)

open Classical in
/-- Labels of the union of the four per-criterion outlier index sets of a
region group (`outliers_indices`, a python set; labels are unique). -/
noncomputable def regionOutlierLabels (g : List LRow) : List ℕ :=
  (g.filter (fun p => decide (flaggedP g p))).map Prod.fst

/-- One iteration of the region loop: group the original table, skip empty
groups, drop the flagged labels from the accumulated cleaned table and add
their number to the running total (lines 2938-3020). -/
noncomputable def regionStep (T : List LRow) (acc : List LRow × ℕ)
    (r : SpectralRegion) : List LRow × ℕ :=
  let g := regionGroup T r
  if g.isEmpty then acc
  else
    let out := regionOutlierLabels g
    (acc.1.filter (fun p => !(out.contains p.1)), acc.2 + out.length)

/-- Rows matching no spectral region (lines 3093-3102). -/
def unclassifiedRows (T : List LRow) : List LRow :=
  T.filter (fun p => !(isClassified p.2.centro))

/-- Stricter rule for unclassified peaks (line 3107):
`R² < 0.5` or `FWHM > 50`. -/
def unclassifiedFlag (p : LRow) : Prop := p.2.r2 < 1/2 ∨ p.2.fwhm > 50

instance (p : LRow) : Decidable (unclassifiedFlag p) := by
  unfold unclassifiedFlag; infer_instance

/-- Labels of the unclassified rows flagged by the stricter rule
(lines 3107-3108). -/
def unclassifiedOutlierLabels (T : List LRow) : List ℕ :=
  ((unclassifiedRows T).filter (fun p => decide (unclassifiedFlag p))).map
    Prod.fst

/-- `detect_and_remove_outliers`: per-region multi-criteria pass over the
seven regions followed by the stricter unclassified pass; returns the
cleaned table and the total number of removed rows. -/
noncomputable def detect_and_remove_outliers (T : List LRow) :
    List LRow × ℕ :=
  let step1 := get_zircon_spectral_regions.foldl (regionStep T) (T, 0)
  let unclOut := unclassifiedOutlierLabels T
  if 0 < unclOut.length then
    (step1.1.filter (fun p => !(unclOut.contains p.1)), step1.2 + unclOut.length)
  else step1

/-! ## airPLS weight update (`airpls_baseline`, lines 1209-1226)

The solver state is real-valued (after the first iteration the weights are
values of the exponential), so this part is embedded over `ℝ`. -/

/-- Mean of a list of reals (`np.mean`). -/
noncomputable def rmean (l : List ℝ) : ℝ := l.sum / l.length

/-- Population standard deviation of a list of reals (`np.std`). -/
noncomputable def rpstd (l : List ℝ) : ℝ :=
  Real.sqrt ((l.map (fun v => (v - rmean l) ^ 2)).sum / l.length)

/-- Euclidean norm (`np.linalg.norm`). -/
noncomputable def rnorm (l : List ℝ) : ℝ :=
  Real.sqrt ((l.map (fun v => v ^ 2)).sum)

/-- The pointwise weight of line 1220,
`wt = 1 / (1 + exp(2 * (d - (2*s - m)) / s))`, where `m`/`s` are the mean
and standard deviation of the negative residuals. -/
noncomputable def airplsW (m s d : ℝ) : ℝ :=
  1 / (1 + Real.exp (2 * (d - (2 * s - m)) / s))

open Classical in
/-- The negative residuals `dn = d[d < 0]` of line 1216. -/
noncomputable def negativeResiduals (d : List ℝ) : List ℝ :=
  d.filter (fun v => decide (v < 0))

/-- Lines 1213-1220: residuals `d = y - z`, negative residuals `dn`, and
the updated weight vector `wt`. -/
noncomputable def updateWeights (y z : List ℝ) : List ℝ :=
  let d := List.zipWith (· - ·) y z
  d.map (airplsW (rmean (negativeResiduals d)) (rpstd (negativeResiduals d)))

open Classical in
/-- The iteration loop of `airpls_baseline` (lines 1209-1226).  `solve`
stands for `scipy.sparse.linalg.spsolve(W + λ·D·Dᵗ, w*y)` given the
current diagonal weights `w` and right-hand side `w*y`; the repository
builds `D` once and re-sets the diagonal of `W` each round.  The loop
runs at most `n` times, breaking early when
`‖w − wt‖ / ‖w‖ < 1e-5`, and returns the last computed `z` (the `0`
fuel case is unreachable: `itermax ≥ 1` in every configuration). -/
noncomputable def airplsLoop (solve : List ℝ → List ℝ → List ℝ)
    (y : List ℝ) : ℕ → List ℝ → List ℝ
  | 0, _ => []
  | n + 1, w =>
    let z := solve w (List.zipWith (· * ·) w y)
    let wt := updateWeights y z
    if rnorm (List.zipWith (· - ·) w wt) / rnorm w < 1/100000 then z
    else if n = 0 then z
    else airplsLoop solve y n wt

/-- `airpls_baseline`: weights start at ones (line 1206) and the function
returns the single array `z` (line 1226) — not a pair. -/
noncomputable def airpls_baseline (solve : List ℝ → List ℝ → List ℝ)
    (y : List ℚ) (itermax : ℕ) : List ℝ :=
  airplsLoop solve (y.map (fun v => (v : ℝ))) itermax (List.replicate y.length 1)

/-! ## Baseline Estimator dispatch (`correct_baseline`, lines 1577-1591)

`polynomial_baseline` and `spline_baseline` return a
`(corrected_spectrum, baseline)` tuple; the `airpls` branch returns the
bare baseline array of `airpls_baseline`.  The untyped Python return value
is modelled by a sum. -/

/-- The two shapes `correct_baseline` can return. -/
inductive BaselineReturn where
  | arr (z : List ℝ)
  | pair (corrected baseline : List ℝ)

/-- The external numeric kernels used by the baseline methods
(scipy/numpy collaborators, abstracted):
`findPeaks` = `scipy.signal.find_peaks(y, prominence=0.02*max(y))`,
`polyfit` = `np.polyfit`, `spline` = the `UnivariateSpline` fit evaluated
on the high-resolution grid and resampled back to `x` (`none` on
`ValueError`), `interp` = `np.interp(x, baseline_x, baseline_y)`,
`spsolve` = `scipy.sparse.linalg.spsolve(W + λ·D·Dᵗ, ·)`. -/
structure BaselineKernels where
  spsolve : List ℝ → List ℝ → List ℝ
  findPeaks : List ℚ → List ℕ
  polyfit : List ℚ → List ℚ → ℕ → List ℚ
  spline : List ℚ → List ℚ → List ℚ → ℚ → Option (List ℚ)
  interp : List ℚ → List ℚ → List ℚ → List ℚ

/-- `np.polyval` (Horner evaluation, highest coefficient first). -/
def polyval (coeffs : List ℚ) (t : ℚ) : ℚ :=
  coeffs.foldl (fun acc c => acc * t + c) 0

/-- The peak-exclusion mask (`mask[left:right] = False` around each peak
with `window = int(len(y) * 0.02)`), as used by both the polynomial and
the spline baselines (lines 1256-1261, 1393-1398): entry `i` is kept when
it lies in no peak window. -/
def maskFromPeaks (n : ℕ) (peaks : List ℕ) : List Bool :=
  let window := n * 2 / 100
  (List.range n).map
    (fun i => !(peaks.any (fun p => decide (p - window ≤ i ∧ i < p + window))))

/-- Select the entries of `l` whose mask bit is set (`l[mask]`). -/
def maskedSelect (l : List ℚ) (mask : List Bool) : List ℚ :=
  ((l.zip mask).filter (fun pr => pr.2)).map Prod.fst

/-- `polynomial_baseline` (lines 1228-1278): mask peak windows, fit a
degree-`degree` polynomial to the unmasked points (falling back to a
linear fit when too few remain), clip the evaluated baseline to the
spectrum, and return `(y - baseline, baseline)`. -/
def polynomial_baseline (K : BaselineKernels) (y x : List ℚ) (degree : ℕ) :
    List ℚ × List ℚ :=
  let peaks := K.findPeaks y
  let mask := maskFromPeaks y.length peaks
  let baseline :=
    if degree + 1 < (maskedSelect y mask).length then
      x.map (polyval (K.polyfit (maskedSelect x mask) (maskedSelect y mask) degree))
    else x.map (polyval (K.polyfit x y 1))
  let baseline2 := List.zipWith min baseline y
  (List.zipWith (· - ·) y baseline2, baseline2)

/-- `spline_baseline` (lines 1380-1428): mask peak windows, fall back to a
median-threshold mask when more than half the points are masked out, sort
the retained points by wavenumber, fit the spline (or fall back to linear
interpolation), clip to the spectrum, subtract, then — specific to this
method — floor-shift the corrected spectrum to zero and normalize its
maximum to 1. -/
def spline_baseline (K : BaselineKernels) (y x : List ℚ) (smoothing : ℚ) :
    List ℚ × List ℚ :=
  let peaks := K.findPeaks y
  let mask0 := maskFromPeaks y.length peaks
  let mask :=
    if (maskedSelect y mask0).length * 2 < y.length then
      y.map (fun v => decide (v ≤ quantileLinear y (1/2)))
    else mask0
  let pts := ((maskedSelect x mask).zip (maskedSelect y mask)).insertionSort
    (fun a b => a.1 ≤ b.1)
  let bx := pts.map Prod.fst
  let bys := pts.map Prod.snd
  let baseline :=
    match K.spline bx bys x smoothing with
    | some b => b
    | none => K.interp bx bys x
  let baseline2 := List.zipWith min baseline y
  let corr := List.zipWith (· - ·) y baseline2
  let corr2 := if minD corr < 0 then corr.map (fun v => v - minD corr) else corr
  let corr3 := if 0 < maxD corr2 then corr2.map (fun v => v / maxD corr2) else corr2
  (corr3, baseline2)

/-- The `baseline_correction` configuration group read by
`correct_baseline` (lines 1577-1588). -/
structure BaselineConfig where
  method : String
  airpls_lambda : ℚ
  polynomial_degree : ℕ
  spline_smoothing : ℚ

/-- Cast a rational pair result to the real-valued return shape. -/
def pairReturn (pr : List ℚ × List ℚ) : BaselineReturn :=
  .pair (pr.1.map (fun v => (v : ℝ))) (pr.2.map (fun v => (v : ℝ)))

/-- `correct_baseline` (lines 1577-1591): string dispatch on the method
name; unknown names fall back to the spline method with its default
smoothing factor 0.1.  The `airpls` branch returns
`airpls_baseline(y, lambda_=lambda_)` unchanged — a bare array, while the
other branches return `(corrected, baseline)` pairs.  `itermax` is the
source default 10. -/
noncomputable def correct_baseline (K : BaselineKernels) (y x : List ℚ)
    (cfg : BaselineConfig) : BaselineReturn :=
  if cfg.method = "airpls" then .arr (airpls_baseline K.spsolve y 10)
  else if cfg.method = "polynomial" then
    pairReturn (polynomial_baseline K y x cfg.polynomial_degree)
  else if cfg.method = "spline" then
    pairReturn (spline_baseline K y x cfg.spline_smoothing)
  else pairReturn (spline_baseline K y x (1/10))

/-! ## Gaussian Fitter (`fit_gaussian_profiles`, lines 2376-2442) -/

/-- `single_gaussian` (line 2105): `A·exp(−(x−μ)²/(2σ²)) + c`. -/
noncomputable def single_gaussian (x amplitude center sigma offset : ℝ) : ℝ :=
  amplitude * Real.exp (-(x - center) ^ 2 / (2 * sigma ^ 2)) + offset

/-- `calculate_gaussian_area`: `A·σ·√(2π)`. -/
noncomputable def calculate_gaussian_area (amplitude sigma : ℝ) : ℝ :=
  amplitude * sigma * Real.sqrt (2 * Real.pi)

/-- One detected peak handed to the fitter: its sample index and the
interpolated half-maximum crossings `fwhm_left_ips[i]`, `fwhm_right_ips[i]`. -/
structure DetectedPeak where
  idx : ℕ
  left : ℚ
  right : ℚ

/-- The result dictionary built for one successful fit (lines 2422-2433). -/
structure FitResult where
  amplitude : ℚ
  center : ℚ
  sigma : ℚ
  offset : ℚ
  fwhm_gaussian : ℚ
  area_gaussian : ℝ
  area_numerical : ℝ
  r_squared : ℝ
  chi_squared_reduced : ℝ
  fit_range : ℚ × ℚ

/-- External optimizer kernels: `curveFit` is
`scipy.optimize.curve_fit(single_gaussian, x_fit, y_fit, p0, bounds, …)`
returning the optimal `(A, μ, σ, c)` or raising (modelled as `Except`);
`simpson` is `scipy.integrate.simpson`. -/
structure FitKernels where
  curveFit : List ℚ → List ℚ → (ℚ × ℚ × ℚ × ℚ) →
    ((ℚ × ℚ × ℚ × ℚ) × (ℚ × ℚ × ℚ × ℚ)) → Except String (ℚ × ℚ × ℚ × ℚ)
  simpson : List ℝ → List ℚ → ℝ

/-- The fit window of one peak (lines 2382-2385):
`[left − 0.2·width, right + 0.2·width]` clamped to `[min(x), max(x)]`. -/
def fitWindow (x : List ℚ) (lp rp : ℚ) : ℚ × ℚ :=
  let width := rp - lp
  let margin := 1/5 * width
  (max (minD x) (lp - margin), min (maxD x) (rp + margin))

/-- The samples of the spectrum falling in the fit window (the
`fit_mask` of line 2387). -/
def windowPoints (x y : List ℚ) (lo hi : ℚ) : List (ℚ × ℚ) :=
  (x.zip y).filter (fun p => decide (lo ≤ p.1 ∧ p.1 ≤ hi))

/-- Process a single peak (the body of the loop of lines 2376-2440):
`none` when fewer than 5 samples fall in the window or the optimizer
raises; otherwise the statistics of lines 2405-2433. -/
noncomputable def processPeak (K : FitKernels) (x y : List ℚ)
    (p : DetectedPeak) : Option FitResult :=
  let x_peak := x.getD p.idx 0
  let y_peak := y.getD p.idx 0
  let width := p.right - p.left
  let w := fitWindow x p.left p.right
  let pts := windowPoints x y w.1 w.2
  let xfit := pts.map Prod.fst
  let yfit := pts.map Prod.snd
  if xfit.length < 5 then none
  else
    let p0 := (y_peak, x_peak, width / (471/200), (0 : ℚ))
    let bounds := ((0, minD xfit, 0, -(1/10)),
                   (min 1 (2 * y_peak), maxD xfit, width, (1/10 : ℚ)))
    match K.curveFit xfit yfit p0 bounds with
    | .error _ => none
    | .ok (A, mu, sg, c) =>
      let residuals := List.zipWith
        (fun xv yv => (yv : ℝ) - single_gaussian (xv : ℝ) A mu sg c) xfit yfit
      let ss_res := (residuals.map (fun v => v ^ 2)).sum
      let ss_tot := ((yfit.map (fun v => ((v : ℝ) - (qmean yfit : ℝ)) ^ 2)).sum)
      let dof := max 1 (yfit.length - 4)
      some
        { amplitude := A, center := mu, sigma := sg, offset := c
          fwhm_gaussian := (471/200) * sg
          area_gaussian := calculate_gaussian_area A sg
          area_numerical :=
            K.simpson (xfit.map (fun xv => single_gaussian xv A mu sg c - c)) xfit
          r_squared := 1 - ss_res / ss_tot
          chi_squared_reduced :=
            ((residuals.map (fun v => v ^ 2 / (popVar yfit : ℝ))).sum) / dof
          fit_range := w }

/-- `fit_gaussian_profiles`: the loop with `continue` — a skipped peak
(too-small window or optimizer error) contributes nothing and the
remaining peaks are still processed. -/
noncomputable def fit_gaussian_profiles (K : FitKernels) (x y : List ℚ) :
    List DetectedPeak → List FitResult
  | [] => []
  | p :: rest =>
    match processPeak K x y p with
    | none => fit_gaussian_profiles K x y rest
    | some r => r :: fit_gaussian_profiles K x y rest

/-! ## Combinatorial Orchestrator
(`test_all_baseline_normalization_combinations`, lines 4477-4712)

The caller's configuration is a Python dict of dicts.  Line 4482 takes a
*shallow* copy (`config.copy()`), so the copy's top level is fresh but its
nested `baseline_correction` and `normalization` groups are the very same
objects as the caller's.  We model the nested group objects through a heap
`ℕ → String` from object identity to the group's `"method"` entry (the
only nested entry the sweep writes), and the top level as an immutable
record holding the two references. -/

/-- The caller's configuration dict: references to the two nested method
groups, plus a representative top-level scalar entry (`output_dir`). -/
structure ConfigDict where
  baseline_ref : ℕ
  norm_ref : ℕ
  output_dir : String

/-- Write the `"method"` entry of the group object `ref` (the dict
mutations of lines 4483-4484). -/
def setMethod (h : ℕ → String) (ref : ℕ) (m : String) : ℕ → String :=
  fun i => if i = ref then m else h i

/-- One row of `combination_summary` (lines 4688-4704; only the fields the
claims need: the identifying pair and the peak count). -/
structure SummaryEntry where
  baseline : String
  norm : String
  total_peaks : ℕ

/-- The per-combination log outcome: each loop iteration either appends a
summary entry (`success`) or logs the combination as skipped/failed and
`continue`s (lines 4510-4514, 4544-4548, 4708-4712). -/
inductive CombEvent where
  | success (baseline norm : String)
  | failed (baseline norm : String) (reason : String)

/-- The identifying pair of an event. -/
def CombEvent.pair : CombEvent → String × String
  | .success b n => (b, n)
  | .failed b n _ => (b, n)

/-- The ordered (baseline, normalization) pairs of the two nested loops
(lines 4477-4478). -/
def allPairs : List String → List String → List (String × String)
  | [], _ => []
  | b :: bs, ns => ns.map (fun n => (b, n)) ++ allPairs bs ns

/-- The state of one sweep: the heap of nested group objects, the
`combination_summary` list and the per-combination log (both append-only
across iterations). -/
structure SweepState where
  heap : ℕ → String
  summary : List SummaryEntry
  events : List CombEvent

/-- One loop iteration (lines 4479-4712) for the pair `(b, n)`:
mutate the shared nested groups through the shallow copy, set the copy's
own `output_dir` (top-level write, caller unaffected), then process all
input files with this combination.  `procFiles b n` abstracts the inner
file loop (lines 4523-4537): an uncaught exception, or the aggregated
result rows.  Missing input, an exception, and an empty aggregate each
log a failure and `continue`; otherwise the summary entry is appended. -/
def sweepIter (csvNonempty : Bool)
    (procFiles : String → String → Except String (List PeakRow))
    (cfg : ConfigDict) (st : SweepState) (p : String × String) : SweepState :=
  let h := setMethod (setMethod st.heap cfg.baseline_ref p.1) cfg.norm_ref p.2
  if !csvNonempty then
    { heap := h, summary := st.summary
      events := st.events ++ [.failed p.1 p.2 "no csv files"] }
  else
    match procFiles p.1 p.2 with
    | .error e =>
      { heap := h, summary := st.summary
        events := st.events ++ [.failed p.1 p.2 e] }
    | .ok rows =>
      if rows.isEmpty then
        { heap := h, summary := st.summary
          events := st.events ++ [.failed p.1 p.2 "no valid peaks"] }
      else
        { heap := h
          summary := st.summary ++ [⟨p.1, p.2, rows.length⟩]
          events := st.events ++ [.success p.1 p.2] }

/-- `test_all_baseline_normalization_combinations`: fold the iteration over
every (baseline, normalization) pair, starting from the caller's heap and
empty accumulators. -/
def test_all_baseline_normalization_combinations (csvNonempty : Bool)
    (procFiles : String → String → Except String (List PeakRow))
    (cfg : ConfigDict) (heap0 : ℕ → String)
    (baseline_methods normalization_methods : List String) : SweepState :=
  (allPairs baseline_methods normalization_methods).foldl
    (sweepIter csvNonempty procFiles cfg) ⟨heap0, [], []⟩

/-- The three baseline methods of the sweep (line 4381). -/
def sweepBaselineMethods : List String := ["airpls", "polynomial", "spline"]

/-- The four normalization methods of the sweep (line 4382). -/
def sweepNormMethods : List String := ["min_max", "area", "peak", "vector"]

/-! ## Concrete result tables used to settle the outlier-detector claims

All centers sit at 1000 cm⁻¹, inside the closed ν₃(SiO₄) region
[990, 1020]; labels are the pandas row index. -/

/-- Seven fitted peaks: five of FWHM 10, one of 20, one of 70, all with
perfect fits (R² = 1). -/
def sampleTable : List LRow :=
  [ (0, ⟨1000, 1, 10⟩), (1, ⟨1000, 1, 10⟩), (2, ⟨1000, 1, 10⟩),
    (3, ⟨1000, 1, 10⟩), (4, ⟨1000, 1, 10⟩), (5, ⟨1000, 1, 20⟩),
    (6, ⟨1000, 1, 70⟩) ]

/-- `sampleTable` after one cleaning pass: the FWHM-70 row is removed. -/
def cleanedSampleTable : List LRow :=
  [ (0, ⟨1000, 1, 10⟩), (1, ⟨1000, 1, 10⟩), (2, ⟨1000, 1, 10⟩),
    (3, ⟨1000, 1, 10⟩), (4, ⟨1000, 1, 10⟩), (5, ⟨1000, 1, 20⟩) ]

/-- Four well-behaved peaks plus one with R² = 0.1 and FWHM = 70, flagged
by both the fit-quality and the physical-implausibility criteria. -/
def unionSampleTable : List LRow :=
  [ (0, ⟨1000, 1, 10⟩), (1, ⟨1000, 1, 10⟩), (2, ⟨1000, 1, 10⟩),
    (3, ⟨1000, 1, 10⟩), (4, ⟨1000, 1/10, 70⟩) ]

/-- `unionSampleTable` after cleaning: the doubly-flagged row is removed
exactly once. -/
def unionCleanedTable : List LRow :=
  [ (0, ⟨1000, 1, 10⟩), (1, ⟨1000, 1, 10⟩), (2, ⟨1000, 1, 10⟩),
    (3, ⟨1000, 1, 10⟩) ]

/-! ## Helper lemmas -/

/-- No center satisfies two distinct region membership tests. -/
lemma regions_pairwise_disjoint (c : ℚ) :
    ∀ r₁ ∈ get_zircon_spectral_regions, ∀ r₂ ∈ get_zircon_spectral_regions,
      inRegion r₁ c = true → inRegion r₂ c = true → r₁ = r₂ := by
  intro r1 h1 r2 h2 m1 m2
  fin_cases h1 <;> fin_cases h2 <;>
    first
      | rfl
      | (exfalso
         simp [inRegion, is_peak_in_region] at m1 m2
         linarith [m1.1, m1.2, m2.1, m2.2])

/-- A filter over a duplicate-free list whose property singles out at most
one element has length at most one. -/
lemma length_filter_le_one {α : Type} (l : List α) (p : α → Bool)
    (hnd : l.Nodup) (huniq : ∀ a ∈ l, ∀ b ∈ l, p a = true → p b = true → a = b) :
    (l.filter p).length ≤ 1 := by
  match h : l.filter p with
  | [] => simp
  | [a] => simp
  | a :: b :: t =>
    exfalso
    have ha : a ∈ l.filter p := by rw [h]; exact List.mem_cons_self _ _
    have hb : b ∈ l.filter p := by rw [h]; exact List.mem_cons_of_mem _ (List.mem_cons_self _ _)
    have hnd' : (l.filter p).Nodup := hnd.filter p
    have hne : a ≠ b := by
      rw [h] at hnd'
      have := List.nodup_cons.mp hnd'
      exact fun he => this.1 (he ▸ List.mem_cons_self _ _)
    exact hne (huniq a (List.mem_of_mem_filter ha) b (List.mem_of_mem_filter hb)
      (List.of_mem_filter ha) (List.of_mem_filter hb))

/-- Sum of a pointwise sum of maps. -/
lemma sum_map_add {α : Type} (l : List α) (f g : α → ℕ) :
    (l.map (fun a => f a + g a)).sum = (l.map f).sum + (l.map g).sum := by
  induction l with
  | nil => simp
  | cons a t ih => simp [ih]; omega

/-- Sum of indicator values equals the count. -/
lemma sum_map_ite {α : Type} (l : List α) (p : α → Bool) :
    (l.map (fun a => if p a then 1 else 0)).sum = l.countP p := by
  induction l with
  | nil => simp
  | cons a t ih =>
    by_cases h : p a <;> simp [List.countP_cons, h, ih] <;> omega

/-- Every center matches exactly one region or is unclassified. -/
lemma matchingRegions_length_add (c : ℚ) :
    (matchingRegions c).length + (if isClassified c then 0 else 1) = 1 := by
  have hle : (matchingRegions c).length ≤ 1 :=
    length_filter_le_one _ _ (by decide) (regions_pairwise_disjoint c)
  by_cases hc : isClassified c = true
  · simp only [hc, if_true, Nat.add_zero]
    obtain ⟨r, hr, hm⟩ := List.any_eq_true.mp hc
    have : r ∈ matchingRegions c := List.mem_filter.mpr ⟨hr, hm⟩
    have hpos : 0 < (matchingRegions c).length :=
      List.length_pos.mpr (List.ne_nil_of_mem this)
    omega
  · simp only [hc, if_false]
    have : matchingRegions c = [] := by
      apply List.filter_eq_nil_iff.mpr
      intro r hr hm
      exact hc (List.any_eq_true.mpr ⟨r, hr, hm⟩)
    simp [this]

/-! ## Claim theorems -/

/-- C6 (counterexample): the claim asserts that the boundary value 230
maps to exactly one region; in the code `External mode 3` is the half-open
interval `[220, 230)`, and no other region contains 230, so 230 matches
zero regions and is counted as unclassified. -/
theorem region_boundary_230_matches_no_region :
    (matchingRegions 230).length = 0 ∧ isClassified 230 = false := by
  constructor <;> decide

/-- C6 (amended): region classification is a partition — every center
matches at most one of the seven membership tests, so the region counts
plus the unclassified count always equal the total peak count; the
boundary values 210, 220 and 365 each map to exactly one region, while
230 matches no region and is counted as unclassified. -/
theorem region_classification_partition :
    (∀ c : ℚ, (matchingRegions c).length ≤ 1) ∧
    (∀ centers : List ℚ,
      (get_zircon_spectral_regions.map (fun r => regionCount r centers)).sum +
        unclassifiedCount centers = centers.length) ∧
    (matchingRegions 210).length = 1 ∧ (matchingRegions 220).length = 1 ∧
    (matchingRegions 365).length = 1 ∧ (matchingRegions 230).length = 0 := by
  refine ⟨?_, ?_, by decide, by decide, by decide, by decide⟩
  · intro c
    exact length_filter_le_one _ _ (by decide) (regions_pairwise_disjoint c)
  · intro centers
    induction centers with
    | nil => simp [regionCount, unclassifiedCount]
    | cons c cs ih =>
      have hcnt : ∀ r : SpectralRegion, regionCount r (c :: cs) =
          regionCount r cs + (if inRegion r c then 1 else 0) := by
        intro r; simp [regionCount, List.countP_cons]
      have hmap : (get_zircon_spectral_regions.map
            (fun r => regionCount r (c :: cs))).sum =
          (get_zircon_spectral_regions.map (fun r => regionCount r cs)).sum +
          (get_zircon_spectral_regions.map
            (fun r => if inRegion r c then 1 else 0)).sum := by
        simp only [hcnt]
        exact sum_map_add _ _ _
      have hind : (get_zircon_spectral_regions.map
            (fun r => if inRegion r c then 1 else 0)).sum =
          (matchingRegions c).length := by
        rw [sum_map_ite]
        simp [matchingRegions, List.countP_eq_length_filter]
      have huncl : unclassifiedCount (c :: cs) =
          unclassifiedCount cs + (if isClassified c then 0 else 1) := by
        by_cases h : isClassified c <;>
          simp [unclassifiedCount, List.countP_cons, h]
      have := matchingRegions_length_add c
      rw [hmap, hind, huncl]
      simp only [List.length_cons]
      omega

/-- C7: the dose estimate `-0.1402 + 0.07683·FWHM` is strictly increasing
in FWHM, and the category boundaries 8, 14.5 and 25 belong to the lower
category (`8 → "Baixo dano"`, `14.5 → "Dano moderado"`,
`25 → "Alto dano"`). -/
theorem radiation_dose_strictly_increasing_and_boundaries :
    (∀ f₁ f₂ : ℚ, f₁ < f₂ → estimated_dose f₁ < estimated_dose f₂) ∧
    (categorize_radiation_damage 8).1 = "Baixo dano" ∧
    (categorize_radiation_damage (29/2)).1 = "Dano moderado" ∧
    (categorize_radiation_damage 25).1 = "Alto dano" := by
  refine ⟨?_, by norm_num [categorize_radiation_damage, damage_category],
    by norm_num [categorize_radiation_damage, damage_category],
    by norm_num [categorize_radiation_damage, damage_category]⟩
  intro f₁ f₂ h
  unfold estimated_dose
  have := mul_lt_mul_of_pos_left h (show (0:ℚ) < 7683/100000 by norm_num)
  linarith

/-- Witness for C7 at concrete inputs. -/
theorem radiation_dose_strictly_increasing_witness :
    estimated_dose 8 < estimated_dose 9 ∧
    (categorize_radiation_damage 8).1 = "Baixo dano" :=
  ⟨radiation_dose_strictly_increasing_and_boundaries.1 8 9 (by norm_num),
   radiation_dose_strictly_increasing_and_boundaries.2.1⟩

/-- The fold of `min` over a list is a lower bound for the seed and every
element. -/
lemma foldl_min_le (l : List ℚ) (a : ℚ) :
    l.foldl min a ≤ a ∧ ∀ v ∈ l, l.foldl min a ≤ v := by
  induction l generalizing a with
  | nil => simp
  | cons b t ih =>
    obtain ⟨h1, h2⟩ := ih (min a b)
    refine ⟨le_trans h1 (min_le_left _ _), ?_⟩
    intro v hv
    rcases List.mem_cons.mp hv with rfl | hv
    · exact le_trans h1 (min_le_right _ _)
    · exact h2 v hv

/-- `minD` lower-bounds every element of a list. -/
lemma minD_le_mem (l : List ℚ) : ∀ v ∈ l, minD l ≤ v := by
  intro v hv
  match l with
  | [] => cases hv
  | h :: t =>
    rcases List.mem_cons.mp hv with rfl | hv
    · exact (foldl_min_le t v).1
    · exact (foldl_min_le t h).2 v hv

/-- C10: every spectrum column that passes the data-quality check of
`process_file` is preconditioned before baseline estimation: `nan_to_num`
replaces every NaN cell by 0 (keeping the length), and the negative-shift
step makes the result pointwise nonnegative, so the array handed to the
Baseline Estimator is NaN-free and nonnegative. -/
theorem process_file_preconditioning (y : List (Option ℚ))
    (h : qualityCheckPasses y = true) :
    (∀ q ∈ preconditionSpectrum y, 0 ≤ q) ∧
    (nan_to_num y).length = y.length ∧
    (∀ i, i < y.length → y.getD i (some 0) = none →
      (nan_to_num y).getD i 1 = 0) := by
  refine ⟨?_, by simp [nan_to_num], ?_⟩
  · intro q hq
    unfold preconditionSpectrum at hq
    by_cases hneg : (nan_to_num y).any (fun v => decide (v < 0))
    · simp only [hneg, if_true, List.mem_map] at hq
      obtain ⟨v, hv, rfl⟩ := hq
      have := minD_le_mem (nan_to_num y) v hv
      linarith
    · simp only [hneg, if_false] at hq
      rw [Bool.not_eq_true] at hneg
      have := List.any_eq_false.mp hneg q hq
      simp only [decide_eq_true_eq] at this
      linarith
  · intro i hi hnone
    unfold nan_to_num
    have hgd : y.getD i (some 0) = y.get ⟨i, hi⟩ := by
      simp [List.getD_eq_getElem?_getD, List.getElem?_eq_getElem hi]
    have hlen : i < (y.map (fun v => v.getD 0)).length := by simp [hi]
    have : (y.map (fun v => v.getD 0)).getD i 1 =
        (y.get ⟨i, hi⟩).getD 0 := by
      simp [List.getD_eq_getElem?_getD, List.getElem?_eq_getElem hlen]
    rw [this, ← hgd, hnone]
    rfl

/-- Witness for C10: a concrete column with one NaN and one negative value
passes the check, the NaN cell becomes 0, and the output is nonnegative. -/
theorem process_file_preconditioning_witness :
    qualityCheckPasses [some 1, none, some (-1)] = true ∧
    (∀ q ∈ preconditionSpectrum [some 1, none, some (-1)], 0 ≤ q) ∧
    ([some (1:ℚ), none, some (-1)].getD 1 (some 0) = none →
      (nan_to_num [some 1, none, some (-1)]).getD 1 1 = 0) :=
  have hq : qualityCheckPasses [some 1, none, some (-1)] = true := by
    norm_num [qualityCheckPasses, nanCount, countNonzero, List.countP_cons,
      show ((none : Option ℚ) = some 0) = False by simp]
  ⟨hq,
   (process_file_preconditioning _ hq).1,
   fun h => (process_file_preconditioning _ hq).2.2 1 (by norm_num) h⟩

/-- Concrete weight-update scenario for C2: residuals `d = [2, -1, -3]`
(from `y = [2, -1, -3]`, `z = [0, 0, 0]`), whose negative residuals have
mean `-2` and population standard deviation `1`. -/
lemma negRes_concrete :
    negativeResiduals (List.zipWith (· - ·) [(2:ℝ), -1, -3] [0, 0, 0]) =
      [-1, -3] := by
  norm_num [negativeResiduals, List.filter_cons, List.filter_nil]

/-- The negative residuals of the concrete scenario have mean -2. -/
lemma rmean_concrete : rmean [(-1:ℝ), -3] = -2 := by
  norm_num [rmean]

/-- The negative residuals of the concrete scenario have standard
deviation 1. -/
lemma rpstd_concrete : rpstd [(-1:ℝ), -3] = 1 := by
  have h : ((([(-1:ℝ), -3]).map (fun v => (v - rmean [(-1:ℝ), -3]) ^ 2)).sum /
      (([(-1:ℝ), -3]).length : ℝ)) = 1 := by
    norm_num [rmean_concrete]
  simp only [rpstd]
  rw [h, Real.sqrt_one]

/-- C2 (counterexample): the claim says that after `d = y − z` every point
with `d > 0` gets weight exactly 0, and every point with `d ≤ 0` gets
weight `exp(d / std(d_negative))`.  The code (line 1220) instead computes
the logistic `wt = 1/(1 + exp(2·(d − (2·std − mean))/std))`.  With
`y = [2, -1, -3]` and `z = [0, 0, 0]` (so `mean(dn) = -2`,
`std(dn) = 1`): the point with `d = 2 > 0` receives weight
`1/(1 + exp(-4)) ≠ 0`, and the point with `d = -1 ≤ 0` receives weight
`1/(1 + exp(-10))`, not the claimed `exp(-1/1) = exp(-1)`. -/
theorem airpls_weight_update_counterexample :
    (List.zipWith (· - ·) [(2:ℝ), -1, -3] [0, 0, 0]).getD 0 0 > 0 ∧
    (updateWeights [(2:ℝ), -1, -3] [0, 0, 0]).getD 0 0 ≠ 0 ∧
    (List.zipWith (· - ·) [(2:ℝ), -1, -3] [0, 0, 0]).getD 1 0 ≤ 0 ∧
    (updateWeights [(2:ℝ), -1, -3] [0, 0, 0]).getD 1 0 ≠ Real.exp (-1) := by
  have hw : updateWeights [(2:ℝ), -1, -3] [0, 0, 0] =
      [airplsW (-2) 1 2, airplsW (-2) 1 (-1), airplsW (-2) 1 (-3)] := by
    simp only [updateWeights, negRes_concrete, rmean_concrete, rpstd_concrete]
    norm_num
  refine ⟨by norm_num, ?_, by norm_num, ?_⟩
  · rw [hw]
    show airplsW (-2) 1 2 ≠ 0
    unfold airplsW
    have hpos : (0:ℝ) < 1 / (1 + Real.exp (2 * (2 - (2 * 1 - -2)) / 1)) := by
      positivity
    exact ne_of_gt hpos
  · rw [hw]
    show airplsW (-2) 1 (-1) ≠ Real.exp (-1)
    unfold airplsW
    have he : (2 * ((-1) - (2 * 1 - -2)) / 1 : ℝ) = -10 := by norm_num
    rw [he]
    have h10 : Real.exp (-10) < 1 := Real.exp_lt_one_iff.mpr (by norm_num)
    have hden : (0:ℝ) < 1 + Real.exp (-10) := by positivity
    have hhalf : (1:ℝ) / 2 < 1 / (1 + Real.exp (-10)) := by
      apply one_div_lt_one_div_of_lt hden
      linarith
    have hexp : Real.exp (-1) < 1 / 2 := by
      have h2 : (2:ℝ) < Real.exp 1 := by
        have := Real.exp_one_gt_d9
        linarith
      have h3 : 1 / Real.exp 1 < 1 / 2 := one_div_lt_one_div_of_lt (by norm_num) h2
      rw [Real.exp_neg, inv_eq_one_div]
      exact h3
    intro hcontra
    rw [← hcontra] at hexp
    linarith

/-- C2 (amended): in every iteration of the reweighted least-squares
solver, after computing `d = y − z`, the updated weight of every point is
the logistic `1/(1 + exp(2·(d − (2·std − mean))/std))` with `mean`/`std`
the mean and population standard deviation of the negative residuals —
the threshold is indeed shifted by `(2·std − mean)`, but the weight of a
point with `d > 0` is strictly positive (small, never exactly 0), every
weight lies strictly between 0 and 1, and for a positive `std` the weight
is strictly decreasing in the residual, so points above the baseline get
smaller weight. -/
theorem airpls_weight_update_logistic :
    (∀ y z : List ℝ, ∀ i : ℕ,
      (updateWeights y z)[i]? =
        ((List.zipWith (· - ·) y z)[i]?).map
          (airplsW (rmean (negativeResiduals (List.zipWith (· - ·) y z)))
                   (rpstd (negativeResiduals (List.zipWith (· - ·) y z))))) ∧
    (∀ m s d : ℝ, 0 < airplsW m s d ∧ airplsW m s d < 1) ∧
    (∀ m s d₁ d₂ : ℝ, 0 < s → d₁ < d₂ → airplsW m s d₂ < airplsW m s d₁) := by
  refine ⟨?_, ?_, ?_⟩
  · intro y z i
    simp only [updateWeights, List.getElem?_map]
  · intro m s d
    unfold airplsW
    have he : (0:ℝ) < Real.exp (2 * (d - (2 * s - m)) / s) := Real.exp_pos _
    constructor
    · positivity
    · rw [div_lt_one (by linarith)]
      linarith
  · intro m s d₁ d₂ hs h
    unfold airplsW
    have hexp : Real.exp (2 * (d₁ - (2 * s - m)) / s) <
        Real.exp (2 * (d₂ - (2 * s - m)) / s) := by
      apply Real.exp_lt_exp.mpr
      apply (div_lt_div_iff_of_pos_right hs).mpr
      linarith
    have h1 : (0:ℝ) < 1 + Real.exp (2 * (d₁ - (2 * s - m)) / s) := by positivity
    exact one_div_lt_one_div_of_lt h1 (by linarith)

/-- Witness for C2 (amended) at concrete inputs. -/
theorem airpls_weight_update_logistic_witness :
    0 < airplsW 0 1 0 ∧ airplsW 0 1 1 < airplsW 0 1 0 ∧
    (updateWeights [(2:ℝ), -1, -3] [0, 0, 0])[0]? =
      (some (2:ℝ)).map (airplsW (rmean [(-1:ℝ), -3]) (rpstd [(-1:ℝ), -3])) := by
  refine ⟨(airpls_weight_update_logistic.2.1 0 1 0).1,
    airpls_weight_update_logistic.2.2 0 1 0 1 one_pos zero_lt_one, ?_⟩
  have h := airpls_weight_update_logistic.1 [(2:ℝ), -1, -3] [0, 0, 0] 0
  rw [h, negRes_concrete]
  norm_num

/-- Every branch of a sweep iteration leaves the heap with the two nested
method writes applied (lines 4483-4484 execute before the `try` block, on
every iteration). -/
lemma sweepIter_heap (c : Bool)
    (procFiles : String → String → Except String (List PeakRow))
    (cfg : ConfigDict) (st : SweepState) (p : String × String) :
    (sweepIter c procFiles cfg st p).heap =
      setMethod (setMethod st.heap cfg.baseline_ref p.1) cfg.norm_ref p.2 := by
  unfold sweepIter
  split
  · rfl
  · split
    · rfl
    · split
      · rfl
      · rfl

/-- C4 (counterexample): the sweep mutates the caller's configuration.
With the caller's nested `baseline_correction` and `normalization` groups
initially holding method `"orig"`, after
`test_all_baseline_normalization_combinations` the caller's groups hold
`"spline"` and `"vector"` — the methods of the last combination — because
line 4482 takes a shallow `config.copy()` whose nested groups are shared
with the caller and are written in place by lines 4483-4484. -/
theorem sweep_mutates_caller_config :
    (test_all_baseline_normalization_combinations true (fun _ _ => .error "e")
      ⟨0, 1, "out"⟩ (fun _ => "orig") sweepBaselineMethods
      sweepNormMethods).heap 0 = "spline" ∧
    (test_all_baseline_normalization_combinations true (fun _ _ => .error "e")
      ⟨0, 1, "out"⟩ (fun _ => "orig") sweepBaselineMethods
      sweepNormMethods).heap 1 = "vector" ∧
    "spline" ≠ "orig" ∧ "vector" ≠ "orig" := by
  refine ⟨?_, ?_, by decide, by decide⟩ <;> rfl

/-- C4 (amended): the sweep's `config.copy()` is shallow, so each
combination does *not* own its own configuration copy of the nested
groups: the caller's nested `baseline_correction` and `normalization`
groups are shared with every per-combination configuration and are
mutated in place; after the sweep they hold the last combination's
methods (`"spline"`, `"vector"`), whatever the processing outcomes.  Only
the top level of the copy is fresh (the `output_dir` write of line 4499
does not reach the caller). -/
theorem sweep_shallow_copy_mutates_nested_groups (heap0 : ℕ → String)
    (procFiles : String → String → Except String (List PeakRow))
    (cfg : ConfigDict) (ne : Bool)
    (href : cfg.baseline_ref ≠ cfg.norm_ref) :
    (test_all_baseline_normalization_combinations ne procFiles cfg heap0
      sweepBaselineMethods sweepNormMethods).heap cfg.baseline_ref = "spline" ∧
    (test_all_baseline_normalization_combinations ne procFiles cfg heap0
      sweepBaselineMethods sweepNormMethods).heap cfg.norm_ref = "vector" := by
  unfold test_all_baseline_normalization_combinations sweepBaselineMethods
    sweepNormMethods
  constructor <;>
    simp [allPairs, List.foldl_cons, List.foldl_nil, sweepIter_heap,
      setMethod, href]

/-- Witness for C4 (amended) at a concrete configuration. -/
theorem sweep_shallow_copy_mutates_nested_groups_witness :
    (test_all_baseline_normalization_combinations false (fun _ _ => .ok [])
      ⟨0, 1, "out"⟩ (fun _ => "orig") sweepBaselineMethods
      sweepNormMethods).heap 0 = "spline" :=
  (sweep_shallow_copy_mutates_nested_groups (fun _ => "orig")
    (fun _ _ => .ok []) ⟨0, 1, "out"⟩ false (by decide)).1

/-- The identifying pair of a summary entry. -/
def entryPair (e : SummaryEntry) : String × String := (e.baseline, e.norm)

/-- The pairs of the combinations logged as skipped/failed. -/
def failurePairs (evs : List CombEvent) : List (String × String) :=
  evs.filterMap (fun e =>
    match e with
    | .failed b n _ => some (b, n)
    | .success _ _ => none)

/-- Each sweep iteration contributes its pair to exactly one side: the
summary (success) or the failure log. -/
lemma sweep_fold_accounting (c : Bool)
    (procFiles : String → String → Except String (List PeakRow))
    (cfg : ConfigDict) :
    ∀ (ps : List (String × String)) (st : SweepState),
      ∃ ds de,
        (ps.foldl (sweepIter c procFiles cfg) st).summary = st.summary ++ ds ∧
        (ps.foldl (sweepIter c procFiles cfg) st).events = st.events ++ de ∧
        (ds.map entryPair ++ failurePairs de).Perm ps ∧
        (∀ p ∈ ps, c = true → procFiles p.1 p.2 = .ok [] →
          CombEvent.failed p.1 p.2 "no valid peaks" ∈ de) := by
  intro ps
  induction ps with
  | nil =>
    intro st
    exact ⟨[], [], by simp, by simp, by simp [failurePairs], by simp⟩
  | cons p ps ih =>
    intro st
    obtain ⟨ds', de', h1, h2, h3, h4⟩ := ih (sweepIter c procFiles cfg st p)
    by_cases hc : c = true
    · subst hc
      match hproc : procFiles p.1 p.2 with
      | .error e =>
        refine ⟨ds', .failed p.1 p.2 e :: de', ?_, ?_, ?_, ?_⟩
        · rw [List.foldl_cons, h1]; simp [sweepIter, hproc]
        · rw [List.foldl_cons, h2]; simp [sweepIter, hproc]
        · simp only [failurePairs, List.filterMap_cons]
          exact List.perm_middle.trans (h3.cons p)
        · intro q hq _ hq2
          rcases List.mem_cons.mp hq with rfl | hq
          · rw [hproc] at hq2; cases hq2
          · exact List.mem_cons_of_mem _ (h4 q hq rfl hq2)
      | .ok rows =>
        by_cases hrows : rows.isEmpty
        · refine ⟨ds', .failed p.1 p.2 "no valid peaks" :: de', ?_, ?_, ?_, ?_⟩
          · rw [List.foldl_cons, h1]; simp [sweepIter, hproc, hrows]
          · rw [List.foldl_cons, h2]; simp [sweepIter, hproc, hrows]
          · simp only [failurePairs, List.filterMap_cons]
            exact List.perm_middle.trans (h3.cons p)
          · intro q hq _ hq2
            rcases List.mem_cons.mp hq with rfl | hq
            · exact List.mem_cons_self _ _
            · exact List.mem_cons_of_mem _ (h4 q hq rfl hq2)
        · refine ⟨⟨p.1, p.2, rows.length⟩ :: ds',
            .success p.1 p.2 :: de', ?_, ?_, ?_, ?_⟩
          · rw [List.foldl_cons, h1]; simp [sweepIter, hproc, hrows]
          · rw [List.foldl_cons, h2]; simp [sweepIter, hproc, hrows]
          · simp only [failurePairs, List.filterMap_cons, List.map_cons,
              entryPair, List.cons_append]
            exact h3.cons (p.1, p.2)
          · intro q hq _ hq2
            rcases List.mem_cons.mp hq with rfl | hq
            · rw [hproc] at hq2
              injection hq2 with he
              subst he
              simp at hrows
            · exact List.mem_cons_of_mem _ (h4 q hq rfl hq2)
    · have hc' : c = false := by simpa using hc
      subst hc'
      refine ⟨ds', .failed p.1 p.2 "no csv files" :: de', ?_, ?_, ?_, ?_⟩
      · rw [List.foldl_cons, h1]; simp [sweepIter]
      · rw [List.foldl_cons, h2]; simp [sweepIter]
      · simp only [failurePairs, List.filterMap_cons]
        exact List.perm_middle.trans (h3.cons p)
      · intro q hq hfalse
        simp at hfalse

/-- C5: with a non-empty valid input set, the sweep over the 3 baseline
methods and 4 normalization methods accounts for all 12 combinations:
summary entries plus logged failures number exactly 12, the pairs they
carry are a permutation of the 12 ordered pairs (no combination is ever
silently missing), and a combination whose processing yields zero result
rows is recorded as failed without aborting the sweep. -/
theorem sweep_completeness
    (procFiles : String → String → Except String (List PeakRow))
    (cfg : ConfigDict) (heap0 : ℕ → String) :
    (test_all_baseline_normalization_combinations true procFiles cfg heap0
        sweepBaselineMethods sweepNormMethods).summary.length +
      (failurePairs (test_all_baseline_normalization_combinations true
        procFiles cfg heap0 sweepBaselineMethods
        sweepNormMethods).events).length = 12 ∧
    ((test_all_baseline_normalization_combinations true procFiles cfg heap0
        sweepBaselineMethods sweepNormMethods).summary.map entryPair ++
      failurePairs (test_all_baseline_normalization_combinations true
        procFiles cfg heap0 sweepBaselineMethods
        sweepNormMethods).events).Perm
      (allPairs sweepBaselineMethods sweepNormMethods) ∧
    (∀ p ∈ allPairs sweepBaselineMethods sweepNormMethods,
      procFiles p.1 p.2 = .ok [] →
      CombEvent.failed p.1 p.2 "no valid peaks" ∈
        (test_all_baseline_normalization_combinations true procFiles cfg heap0
          sweepBaselineMethods sweepNormMethods).events) := by
  obtain ⟨ds, de, h1, h2, h3, h4⟩ :=
    sweep_fold_accounting true procFiles cfg
      (allPairs sweepBaselineMethods sweepNormMethods) ⟨heap0, [], []⟩
  have hsum : (test_all_baseline_normalization_combinations true procFiles cfg
      heap0 sweepBaselineMethods sweepNormMethods).summary = ds := by
    rw [test_all_baseline_normalization_combinations, h1]; rfl
  have hev : (test_all_baseline_normalization_combinations true procFiles cfg
      heap0 sweepBaselineMethods sweepNormMethods).events = de := by
    rw [test_all_baseline_normalization_combinations, h2]; rfl
  refine ⟨?_, ?_, ?_⟩
  · rw [hsum, hev]
    have := h3.length_eq
    simp only [List.length_append, List.length_map] at this
    rw [this]
    decide
  · rw [hsum, hev]
    exact h3
  · intro p hp hpz
    rw [hev]
    exact h4 p hp rfl hpz

/-- Witness for C5: a processing function yielding zero rows everywhere
records every combination as failed and the sweep still covers all 12. -/
theorem sweep_completeness_witness :
    ("airpls", "min_max") ∈ allPairs sweepBaselineMethods sweepNormMethods ∧
    CombEvent.failed "airpls" "min_max" "no valid peaks" ∈
      (test_all_baseline_normalization_combinations true (fun _ _ => .ok [])
        ⟨0, 1, "out"⟩ (fun _ => "orig") sweepBaselineMethods
        sweepNormMethods).events :=
  ⟨by decide,
   (sweep_completeness (fun _ _ => .ok []) ⟨0, 1, "out"⟩ (fun _ => "orig")).2.2
     ("airpls", "min_max") (by decide) rfl⟩

/-- C9: for every detected peak the Gaussian fitter builds the window
`[leftHalfMax − 0.2·width, rightHalfMax + 0.2·width]` clamped to the
spectrum bounds — a sample enters the fit exactly when it lies in that
interval; a peak whose window holds fewer than 5 samples is skipped
(contributing no result row), a peak on which the optimizer raises is
likewise skipped, and in both cases the remaining peaks are still
processed, the results being exactly those of the peak list without the
skipped peak. -/
theorem gaussian_fitter_window_and_skip (K : FitKernels) (x y : List ℚ)
    (p : DetectedPeak) (rest pre : List DetectedPeak) :
    (∀ q ∈ x.zip y, (q ∈ windowPoints x y (fitWindow x p.left p.right).1
        (fitWindow x p.left p.right).2 ↔
      max (minD x) (p.left - 1/5 * (p.right - p.left)) ≤ q.1 ∧
        q.1 ≤ min (maxD x) (p.right + 1/5 * (p.right - p.left)))) ∧
    ((windowPoints x y (fitWindow x p.left p.right).1
        (fitWindow x p.left p.right).2).length < 5 →
      fit_gaussian_profiles K x y (pre ++ p :: rest) =
        fit_gaussian_profiles K x y (pre ++ rest)) ∧
    (∀ e, ¬(windowPoints x y (fitWindow x p.left p.right).1
        (fitWindow x p.left p.right).2).length < 5 →
      K.curveFit ((windowPoints x y (fitWindow x p.left p.right).1
          (fitWindow x p.left p.right).2).map Prod.fst)
        ((windowPoints x y (fitWindow x p.left p.right).1
          (fitWindow x p.left p.right).2).map Prod.snd)
        (y.getD p.idx 0, x.getD p.idx 0, (p.right - p.left) / (471/200), 0)
        ((0, minD ((windowPoints x y (fitWindow x p.left p.right).1
            (fitWindow x p.left p.right).2).map Prod.fst), 0, -(1/10)),
         (min 1 (2 * y.getD p.idx 0),
          maxD ((windowPoints x y (fitWindow x p.left p.right).1
            (fitWindow x p.left p.right).2).map Prod.fst),
          p.right - p.left, 1/10)) = .error e →
      fit_gaussian_profiles K x y (pre ++ p :: rest) =
        fit_gaussian_profiles K x y (pre ++ rest)) := by
  have hstep : ∀ (q : DetectedPeak) (l : List DetectedPeak),
      fit_gaussian_profiles K x y (q :: l) =
        match processPeak K x y q with
        | none => fit_gaussian_profiles K x y l
        | some r => r :: fit_gaussian_profiles K x y l := fun _ _ => rfl
  have hskip : processPeak K x y p = none →
      fit_gaussian_profiles K x y (pre ++ p :: rest) =
        fit_gaussian_profiles K x y (pre ++ rest) := by
    intro hnone
    induction pre with
    | nil =>
      rw [List.nil_append, List.nil_append, hstep, hnone]
    | cons q t ih =>
      rw [List.cons_append, List.cons_append, hstep, hstep]
      cases processPeak K x y q
      · exact ih
      · exact congrArg _ ih
  refine ⟨?_, ?_, ?_⟩
  · intro q hq
    rw [windowPoints, List.mem_filter]
    simp [hq, fitWindow]
  · intro hlt
    apply hskip
    simp only [processPeak]
    split
    · rfl
    · next hcond =>
      exfalso
      rw [List.length_map] at hcond
      exact hcond hlt
  · intro e hge herr
    apply hskip
    simp only [processPeak]
    split
    · next hcond =>
      exfalso
      rw [List.length_map] at hcond
      exact hge hcond
    · rw [herr]

/-- Witness for C9: a four-sample spectrum gives every peak a window with
fewer than 5 samples, so the fitter returns no rows; and with exactly 5
samples an erroring optimizer also yields no rows while a second,
well-windowed peak list is unaffected. -/
theorem gaussian_fitter_window_and_skip_witness :
    (windowPoints [0, 1, 2, 3] [1, 2, 1, 0]
        (fitWindow [0, 1, 2, 3] 0 3).1 (fitWindow [0, 1, 2, 3] 0 3).2).length < 5 ∧
    fit_gaussian_profiles
        ⟨fun _ _ _ _ => .error "err", fun _ _ => 0⟩ [0, 1, 2, 3] [1, 2, 1, 0]
        ([] ++ ⟨1, 0, 3⟩ :: []) =
      fit_gaussian_profiles
        ⟨fun _ _ _ _ => .error "err", fun _ _ => 0⟩ [0, 1, 2, 3] [1, 2, 1, 0]
        ([] ++ []) := by
  have hlen : (windowPoints [(0:ℚ), 1, 2, 3] [1, 2, 1, 0]
      (fitWindow [0, 1, 2, 3] 0 3).1 (fitWindow [0, 1, 2, 3] 0 3).2).length < 5 := by
    norm_num [windowPoints, fitWindow, minD, maxD, List.filter_cons,
      List.filter_nil]
  exact ⟨hlen,
    (gaussian_fitter_window_and_skip ⟨fun _ _ _ _ => .error "err", fun _ _ => 0⟩
      [0, 1, 2, 3] [1, 2, 1, 0] ⟨1, 0, 3⟩ [] []).2.1 hlen⟩

/-- C1 (code-bug evaluation): for the `"airpls"` method,
`correct_baseline` returns the bare baseline array produced by
`airpls_baseline` (line 1582 returns `airpls_baseline(y, lambda_=lambda_)`,
whose own line 1226 returns only `z`) — it is never of the
`(correctedSpectrum, baseline)` pair shape that the function's docstring
documents and that `process_file` (line 4280) unpacks; by contrast, the
polynomial branch does return a pair whose first component is exactly the
input minus the returned baseline. -/
theorem correct_baseline_airpls_returns_bare_array (K : BaselineKernels)
    (y x : List ℚ) (cfg : BaselineConfig) (h : cfg.method = "airpls")
    (d : ℕ) :
    correct_baseline K y x cfg = .arr (airpls_baseline K.spsolve y 10) ∧
    (∀ c b, correct_baseline K y x cfg ≠ .pair c b) ∧
    (polynomial_baseline K y x d).1 =
      List.zipWith (· - ·) y (polynomial_baseline K y x d).2 := by
  refine ⟨?_, ?_, ?_⟩
  · unfold correct_baseline
    rw [if_pos h]
  · intro c b h'
    unfold correct_baseline at h'
    rw [if_pos h] at h'
    cases h'
  · rfl

/-- Witness for C1 at a concrete configuration and spectrum. -/
theorem correct_baseline_airpls_returns_bare_array_witness :
    correct_baseline
        ⟨fun _ _ => [], fun _ => [], fun _ _ _ => [], fun _ _ _ _ => none,
         fun _ _ _ => []⟩
        [1, 2, 3] [0, 1, 2] ⟨"airpls", 100000, 3, 1/10⟩ =
      .arr (airpls_baseline (fun _ _ => []) [1, 2, 3] 10) :=
  (correct_baseline_airpls_returns_bare_array
    ⟨fun _ _ => [], fun _ => [], fun _ _ _ => [], fun _ _ _ _ => none,
     fun _ _ _ => []⟩
    [1, 2, 3] [0, 1, 2] ⟨"airpls", 100000, 3, 1/10⟩ rfl 3).1

/-! ## Outlier Detector lemmas -/

/-- The sample variance is never negative. -/
lemma sampleVar_nonneg (l : List ℚ) : 0 ≤ sampleVar l := by
  unfold sampleVar
  match l with
  | [] => simp
  | h :: t =>
    apply div_nonneg
    · apply List.sum_nonneg
      intro v hv
      obtain ⟨w, _, rfl⟩ := List.mem_map.mp hv
      positivity
    · have h1 : (1:ℚ) ≤ (h :: t).length := by
        simp only [List.length_cons, Nat.cast_add, Nat.cast_one]
        have := Nat.cast_nonneg (α := ℚ) t.length
        linarith
      linarith

/-- A z-score is at most 3 when the squared deviation is at most nine
variances. -/
lemma abs_div_sqrt_le_three (a v : ℝ) (hv : 0 ≤ v) (h : a ^ 2 ≤ 9 * v) :
    |a| / Real.sqrt v ≤ 3 := by
  rcases eq_or_lt_of_le hv with hv0 | hv0
  · have ha : a = 0 := by nlinarith [sq_nonneg a]
    simp [ha, ← hv0]
  · have hs : 0 < Real.sqrt v := Real.sqrt_pos.mpr hv0
    rw [div_le_iff₀ hs]
    have h1 : Real.sqrt (a ^ 2) ≤ Real.sqrt (9 * v) := Real.sqrt_le_sqrt h
    rw [Real.sqrt_sq_eq_abs] at h1
    have h2 : Real.sqrt (9 * v) = 3 * Real.sqrt v := by
      rw [show (9:ℝ) * v = 3 ^ 2 * v by ring,
        Real.sqrt_mul (by norm_num), Real.sqrt_sq (by norm_num)]
    linarith

/-- The z-score criterion cannot flag a row whose squared FWHM deviation
is at most nine sample variances. -/
lemma not_zscoreP (g : List LRow) (p : LRow)
    (h : (p.2.fwhm - qmean (fwhms g)) ^ 2 ≤ 9 * sampleVar (fwhms g)) :
    ¬zscoreP g p := by
  rintro ⟨-, hgt⟩
  have hcast : ((p.2.fwhm : ℝ) - (qmean (fwhms g) : ℝ)) ^ 2 ≤
      9 * ((sampleVar (fwhms g) : ℚ) : ℝ) := by
    exact_mod_cast h
  have hv : (0:ℝ) ≤ ((sampleVar (fwhms g) : ℚ) : ℝ) := by
    exact_mod_cast sampleVar_nonneg (fwhms g)
  have := abs_div_sqrt_le_three _ _ hv hcast
  rw [sstd] at hgt
  linarith

/-- Membership in one region step: a row survives iff it was there and its
label is not among the region's flagged labels (an empty group flags
nothing). -/
lemma mem_regionStep_iff (T : List LRow) (acc : List LRow × ℕ)
    (r : SpectralRegion) (p : LRow) :
    p ∈ (regionStep T acc r).1 ↔ p ∈ acc.1 ∧
      (regionOutlierLabels (regionGroup T r)).contains p.1 = false := by
  simp only [regionStep]
  split
  · next hEmp =>
    have hg : regionGroup T r = [] := List.isEmpty_iff.mp hEmp
    simp [regionOutlierLabels, hg]
  · next hEmp =>
    simp only [List.mem_filter, Bool.not_eq_true']

/-- Membership across the whole region fold. -/
lemma mem_foldl_regionStep_iff (T : List LRow) :
    ∀ (rs : List SpectralRegion) (acc : List LRow × ℕ) (p : LRow),
      p ∈ (rs.foldl (regionStep T) acc).1 ↔ p ∈ acc.1 ∧
        ∀ r ∈ rs,
          (regionOutlierLabels (regionGroup T r)).contains p.1 = false := by
  intro rs
  induction rs with
  | nil => intro acc p; simp
  | cons r rs ih =>
    intro acc p
    rw [List.foldl_cons, ih, mem_regionStep_iff]
    constructor
    · rintro ⟨⟨h1, h2⟩, h3⟩
      exact ⟨h1, fun r' hr' => by
        rcases List.mem_cons.mp hr' with rfl | hr'
        · exact h2
        · exact h3 r' hr'⟩
    · rintro ⟨h1, h2⟩
      exact ⟨⟨h1, h2 r (List.mem_cons_self _ _)⟩,
        fun r' hr' => h2 r' (List.mem_cons_of_mem _ hr')⟩

/-- Membership in the cleaned table: a row survives the cleaning pass iff
it is in the input table, no region's flagged-label set holds its label,
and the unclassified flagged-label set does not hold its label. -/
lemma mem_detect_iff (T : List LRow) (p : LRow) :
    p ∈ (detect_and_remove_outliers T).1 ↔ p ∈ T ∧
      (∀ r ∈ get_zircon_spectral_regions,
        (regionOutlierLabels (regionGroup T r)).contains p.1 = false) ∧
      (unclassifiedOutlierLabels T).contains p.1 = false := by
  simp only [detect_and_remove_outliers]
  split
  · next hpos =>
    simp only [List.mem_filter, Bool.not_eq_true']
    rw [mem_foldl_regionStep_iff]
    tauto
  · next hpos =>
    have h0 : (unclassifiedOutlierLabels T).length = 0 := by omega
    have he : unclassifiedOutlierLabels T = [] := List.length_eq_zero.mp h0
    rw [mem_foldl_regionStep_iff, he]
    simp

/-- The cleaned table is a sublist of the input table. -/
lemma detect_sublist (T : List LRow) :
    (detect_and_remove_outliers T).1.Sublist T := by
  have hfold : ∀ (rs : List SpectralRegion) (acc : List LRow × ℕ),
      (rs.foldl (regionStep T) acc).1.Sublist acc.1 := by
    intro rs
    induction rs with
    | nil => intro acc; exact List.Sublist.refl _
    | cons r rs ih =>
      intro acc
      refine (ih (regionStep T acc r)).trans ?_
      simp only [regionStep]
      split
      · exact List.Sublist.refl _
      · exact List.filter_sublist _
  simp only [detect_and_remove_outliers]
  split
  · exact (List.filter_sublist _).trans (hfold _ _)
  · exact hfold _ _

/-- Two rows of a duplicate-free-label table with the same label are the
same row. -/
lemma label_inj {T : List LRow} (hnd : (T.map Prod.fst).Nodup)
    {p q : LRow} (hp : p ∈ T) (hq : q ∈ T) (h : p.1 = q.1) : p = q := by
  induction T with
  | nil => cases hp
  | cons a t ih =>
    rw [List.map_cons, List.nodup_cons] at hnd
    rcases List.mem_cons.mp hp with rfl | hp' <;>
      rcases List.mem_cons.mp hq with rfl | hq'
    · rfl
    · exact absurd (h ▸ List.mem_map_of_mem Prod.fst hq') hnd.1
    · exact absurd (h ▸ List.mem_map_of_mem Prod.fst hp') hnd.1
    · exact ih hnd.2 hp' hq'

open Classical in
/-- A flagged member's label is in the region's flagged-label list
(classical decidability, matching the embedded filter). -/
lemma contains_of_flagged {g : List LRow} {p : LRow} (hp : p ∈ g)
    (hf : flaggedP g p) :
    (regionOutlierLabels g).contains p.1 = true := by
  have : p.1 ∈ regionOutlierLabels g := by
    apply List.mem_map_of_mem Prod.fst
    exact List.mem_filter.mpr ⟨hp, decide_eq_true hf⟩
  simpa [List.elem_iff] using this

open Classical in
/-- A label in the region's flagged-label list belongs to a flagged
member. -/
lemma flagged_of_contains {g : List LRow} {a : ℕ}
    (h : (regionOutlierLabels g).contains a = true) :
    ∃ q ∈ g, flaggedP g q ∧ q.1 = a := by
  have : a ∈ regionOutlierLabels g := by simpa [List.elem_iff] using h
  obtain ⟨q, hq, rfl⟩ := List.mem_map.mp this
  have hf : flaggedP g q := by
    have hraw := List.of_mem_filter hq
    simpa using hraw
  exact ⟨q, List.mem_of_mem_filter hq, hf, rfl⟩

/-- A flagged unclassified member's label is in the unclassified
flagged-label list. -/
lemma contains_of_unclassifiedFlag {T : List LRow} {p : LRow} (hp : p ∈ T)
    (hc : isClassified p.2.centro = false) (hf : unclassifiedFlag p) :
    (unclassifiedOutlierLabels T).contains p.1 = true := by
  have : p.1 ∈ unclassifiedOutlierLabels T := by
    apply List.mem_map_of_mem Prod.fst
    refine List.mem_filter.mpr ⟨?_, decide_eq_true hf⟩
    exact List.mem_filter.mpr ⟨hp, by simp [hc]⟩
  simpa [List.elem_iff] using this

/-- A label in the unclassified flagged-label list belongs to a flagged
unclassified member of the table. -/
lemma unclassifiedFlag_of_contains {T : List LRow} {a : ℕ}
    (h : (unclassifiedOutlierLabels T).contains a = true) :
    ∃ q ∈ T, isClassified q.2.centro = false ∧ unclassifiedFlag q ∧ q.1 = a := by
  have : a ∈ unclassifiedOutlierLabels T := by
    simpa [List.elem_iff] using h
  obtain ⟨q, hq, rfl⟩ := List.mem_map.mp this
  have hq1 := List.mem_of_mem_filter hq
  have hq2 : unclassifiedFlag q := by
    have hraw := List.of_mem_filter hq
    simpa using hraw
  refine ⟨q, List.mem_of_mem_filter hq1, ?_, hq2, rfl⟩
  have := List.of_mem_filter hq1
  simpa using this

/-! ## Concrete evaluations for the outlier-detector claims -/

/-- FWHM quartile of the seven-row region: Q1 = 10. -/
lemma q1_seven : quantileLinear [10, 10, 10, 10, 10, 20, 70] (1/4) = 10 := by
  have hs : ([10, 10, 10, 10, 10, 20, 70] : List ℚ).insertionSort (· ≤ ·) =
      [10, 10, 10, 10, 10, 20, 70] := by
    norm_num [List.insertionSort, List.orderedInsert]
  have hf : ⌊(1/4 * (((7:ℕ) : ℚ) - 1))⌋ = 1 := by
    rw [Int.floor_eq_iff] <;> norm_num
  unfold quantileLinear
  rw [hs]
  norm_num [hf, Int.toNat_ofNat]

/-- FWHM quartile of the seven-row region: Q3 = 15. -/
lemma q3_seven : quantileLinear [10, 10, 10, 10, 10, 20, 70] (3/4) = 15 := by
  have hs : ([10, 10, 10, 10, 10, 20, 70] : List ℚ).insertionSort (· ≤ ·) =
      [10, 10, 10, 10, 10, 20, 70] := by
    norm_num [List.insertionSort, List.orderedInsert]
  have hf : ⌊(3/4 * (((7:ℕ) : ℚ) - 1))⌋ = 4 := by
    rw [Int.floor_eq_iff] <;> norm_num
  have ht : (4:ℤ).toNat = 4 := rfl
  unfold quantileLinear
  rw [hs]
  norm_num [hf, ht]

/-- FWHM quartile of the cleaned six-row region: Q1 = 10. -/
lemma q1_six : quantileLinear [10, 10, 10, 10, 10, 20] (1/4) = 10 := by
  have hs : ([10, 10, 10, 10, 10, 20] : List ℚ).insertionSort (· ≤ ·) =
      [10, 10, 10, 10, 10, 20] := by
    norm_num [List.insertionSort, List.orderedInsert]
  have hf : ⌊(1/4 * (((6:ℕ) : ℚ) - 1))⌋ = 1 := by
    rw [Int.floor_eq_iff] <;> norm_num
  unfold quantileLinear
  rw [hs]
  norm_num [hf, Int.toNat_ofNat]

/-- FWHM quartile of the cleaned six-row region: Q3 = 10, so the IQR
collapses to zero once the 70 cm⁻¹ row is gone. -/
lemma q3_six : quantileLinear [10, 10, 10, 10, 10, 20] (3/4) = 10 := by
  have hs : ([10, 10, 10, 10, 10, 20] : List ℚ).insertionSort (· ≤ ·) =
      [10, 10, 10, 10, 10, 20] := by
    norm_num [List.insertionSort, List.orderedInsert]
  have hf : ⌊(3/4 * (((6:ℕ) : ℚ) - 1))⌋ = 3 := by
    rw [Int.floor_eq_iff] <;> norm_num
  have ht : (3:ℤ).toNat = 3 := rfl
  unfold quantileLinear
  rw [hs]
  norm_num [hf, ht]

/-- FWHM quartile of the five-row union-scenario region: Q1 = 10. -/
lemma q1_five : quantileLinear [10, 10, 10, 10, 70] (1/4) = 10 := by
  have hs : ([10, 10, 10, 10, 70] : List ℚ).insertionSort (· ≤ ·) =
      [10, 10, 10, 10, 70] := by
    norm_num [List.insertionSort, List.orderedInsert]
  have hf : ⌊(1/4 * (((5:ℕ) : ℚ) - 1))⌋ = 1 := by
    rw [Int.floor_eq_iff] <;> norm_num
  unfold quantileLinear
  rw [hs]
  norm_num [hf, Int.toNat_ofNat]

/-- FWHM quartile of the five-row union-scenario region: Q3 = 10. -/
lemma q3_five : quantileLinear [10, 10, 10, 10, 70] (3/4) = 10 := by
  have hs : ([10, 10, 10, 10, 70] : List ℚ).insertionSort (· ≤ ·) =
      [10, 10, 10, 10, 70] := by
    norm_num [List.insertionSort, List.orderedInsert]
  have hf : ⌊(3/4 * (((5:ℕ) : ℚ) - 1))⌋ = 3 := by
    rw [Int.floor_eq_iff] <;> norm_num
  have ht : (3:ℤ).toNat = 3 := rfl
  unfold quantileLinear
  rw [hs]
  norm_num [hf, ht]

/-- Mean FWHM of the seven-row region. -/
lemma qmean_seven : qmean [10, 10, 10, 10, 10, 20, 70] = 20 := by
  norm_num [qmean]

/-- Sample variance (ddof = 1) of the seven-row region. -/
lemma sampleVar_seven : sampleVar [10, 10, 10, 10, 10, 20, 70] = 500 := by
  unfold sampleVar
  simp only [qmean_seven]
  norm_num

/-- Mean FWHM of the five-row union-scenario region. -/
lemma qmean_five : qmean [10, 10, 10, 10, 70] = 22 := by
  norm_num [qmean]

/-- Sample variance of the five-row union-scenario region. -/
lemma sampleVar_five : sampleVar [10, 10, 10, 10, 70] = 720 := by
  unfold sampleVar
  simp only [qmean_five]
  norm_num

/-- In the seven-row region, no good row (FWHM 10 or 20) is flagged by any
criterion: the IQR fence is [2.5, 22.5], the z-scores stay below 3, and
the absolute thresholds are not met. -/
lemma not_flagged_sampleTable (i : ℕ) (f : ℚ) (hf : f = 10 ∨ f = 20) :
    ¬flaggedP sampleTable (i, ⟨1000, 1, f⟩) := by
  have hfw : fwhms sampleTable = [10, 10, 10, 10, 10, 20, 70] := rfl
  rintro (h | ⟨-, h⟩ | h | h)
  · norm_num [poorFitP] at h
  · rw [hfw, q1_seven, q3_seven] at h
    rcases hf with rfl | rfl <;> rcases h with h | h <;> norm_num at h
  · refine not_zscoreP _ _ ?_ h
    rw [hfw, qmean_seven, sampleVar_seven]
    rcases hf with rfl | rfl <;> norm_num
  · rcases hf with rfl | rfl <;> norm_num [extremeP] at h

/-- In the seven-row region, the FWHM-70 row is flagged (physical
implausibility). -/
lemma flagged_sampleTable_70 : flaggedP sampleTable (6, ⟨1000, 1, 70⟩) := by
  right; right; right
  show (60:ℚ) < 70
  norm_num

open Classical in
/-- The flagged-label set of the seven-row region is exactly {6}. -/
lemma out_sampleTable : regionOutlierLabels sampleTable = [6] := by
  unfold regionOutlierLabels
  rw [List.filter_congr (q := fun p : LRow => p.1 == 6) ?_]
  · decide
  · intro p hp
    fin_cases hp
    · simpa using decide_eq_false (not_flagged_sampleTable 0 10 (Or.inl rfl))
    · simpa using decide_eq_false (not_flagged_sampleTable 1 10 (Or.inl rfl))
    · simpa using decide_eq_false (not_flagged_sampleTable 2 10 (Or.inl rfl))
    · simpa using decide_eq_false (not_flagged_sampleTable 3 10 (Or.inl rfl))
    · simpa using decide_eq_false (not_flagged_sampleTable 4 10 (Or.inl rfl))
    · simpa using decide_eq_false (not_flagged_sampleTable 5 20 (Or.inr rfl))
    · simpa using decide_eq_true flagged_sampleTable_70

/-- Evaluation of the cleaning pass on a table whose rows all sit in the
ν₃(SiO₄) region: only the first region's step fires, the other six groups
are empty, and there are no unclassified rows. -/
lemma detect_eval_nu3_only (T : List LRow) (out : List ℕ)
    (hne : T.isEmpty = false)
    (hg3 : regionGroup T ⟨"ν₃(SiO₄)", 990, 1020, true⟩ = T)
    (hg1 : regionGroup T ⟨"ν₁(SiO₄)", 965, 985, true⟩ = [])
    (hg2 : regionGroup T ⟨"ν₂(SiO₄)", 430, 450, true⟩ = [])
    (he1 : regionGroup T ⟨"External mode 1", 195, 210, false⟩ = [])
    (he2 : regionGroup T ⟨"External mode 2", 210, 220, false⟩ = [])
    (he3 : regionGroup T ⟨"External mode 3", 220, 230, false⟩ = [])
    (he4 : regionGroup T ⟨"External mode 4", 350, 365, true⟩ = [])
    (hout : regionOutlierLabels T = out)
    (hun : unclassifiedOutlierLabels T = []) :
    detect_and_remove_outliers T =
      (T.filter (fun p => !(out.contains p.1)), out.length) := by
  have hstep : ∀ r, regionGroup T r = [] →
      ∀ acc : List LRow × ℕ, regionStep T acc r = acc := by
    intro r hr acc
    simp [regionStep, hr]
  have h3 : regionStep T (T, 0) ⟨"ν₃(SiO₄)", 990, 1020, true⟩ =
      (T.filter (fun p => !(out.contains p.1)), out.length) := by
    simp only [regionStep, hg3, hne, hout]
    simp
  simp only [detect_and_remove_outliers,
    show get_zircon_spectral_regions =
      [ ⟨"ν₃(SiO₄)", 990, 1020, true⟩, ⟨"ν₁(SiO₄)", 965, 985, true⟩,
        ⟨"ν₂(SiO₄)", 430, 450, true⟩, ⟨"External mode 1", 195, 210, false⟩,
        ⟨"External mode 2", 210, 220, false⟩,
        ⟨"External mode 3", 220, 230, false⟩,
        ⟨"External mode 4", 350, 365, true⟩ ] from rfl,
    List.foldl_cons, List.foldl_nil]
  rw [h3, hstep _ hg1, hstep _ hg2, hstep _ he1, hstep _ he2, hstep _ he3,
    hstep _ he4, hun]
  simp

/-- One cleaning pass on the seven-row table removes exactly the FWHM-70
row. -/
lemma detect_sampleTable :
    detect_and_remove_outliers sampleTable = (cleanedSampleTable, 1) := by
  rw [detect_eval_nu3_only sampleTable [6] rfl (by decide) (by decide)
    (by decide) (by decide) (by decide) (by decide) (by decide)
    out_sampleTable (by decide)]
  decide

/-- The accumulated removal count never decreases along the region fold. -/
lemma foldl_regionStep_snd_mono (T : List LRow) :
    ∀ (rs : List SpectralRegion) (acc : List LRow × ℕ),
      acc.2 ≤ (rs.foldl (regionStep T) acc).2 := by
  intro rs
  induction rs with
  | nil => intro acc; exact le_refl _
  | cons r rs ih =>
    intro acc
    refine le_trans ?_ (ih (regionStep T acc r))
    simp only [regionStep]
    split
    · exact le_refl _
    · exact Nat.le_add_right _ _

/-- The total removal count dominates the region fold's count. -/
lemma detect_snd_ge (T : List LRow) :
    (get_zircon_spectral_regions.foldl (regionStep T) (T, 0)).2 ≤
      (detect_and_remove_outliers T).2 := by
  simp only [detect_and_remove_outliers]
  split
  · exact Nat.le_add_right _ _
  · exact le_refl _

/-- On the cleaned six-row table the IQR fence collapses to [10, 10], so
the FWHM-20 row is flagged by the IQR criterion. -/
lemma flagged_cleaned_20 :
    flaggedP cleanedSampleTable (5, ⟨1000, 1, 20⟩) := by
  right; left
  unfold iqrP
  have hfw : fwhms cleanedSampleTable = [10, 10, 10, 10, 10, 20] := rfl
  rw [hfw, q1_six, q3_six]
  exact ⟨by norm_num, Or.inr (by norm_num)⟩

open Classical in
/-- Re-running the cleaning pass on the cleaned table removes at least one
more row. -/
lemma second_pass_removes :
    0 < (detect_and_remove_outliers cleanedSampleTable).2 := by
  have hg3 : regionGroup cleanedSampleTable ⟨"ν₃(SiO₄)", 990, 1020, true⟩ =
      cleanedSampleTable := by decide
  have hmem : (5, (⟨1000, 1, 20⟩ : PeakRow)) ∈
      cleanedSampleTable.filter
        (fun p => decide (flaggedP cleanedSampleTable p)) :=
    List.mem_filter.mpr ⟨by decide, decide_eq_true flagged_cleaned_20⟩
  have h1 : 0 < (regionOutlierLabels cleanedSampleTable).length := by
    have := List.length_pos.mpr (List.ne_nil_of_mem hmem)
    simpa [regionOutlierLabels] using this
  have hfirst : (regionStep cleanedSampleTable (cleanedSampleTable, 0)
      ⟨"ν₃(SiO₄)", 990, 1020, true⟩).2 =
      (regionOutlierLabels cleanedSampleTable).length := by
    simp only [regionStep, hg3, show cleanedSampleTable.isEmpty = false from rfl]
    simp
  have hchain : (regionStep cleanedSampleTable (cleanedSampleTable, 0)
      ⟨"ν₃(SiO₄)", 990, 1020, true⟩).2 ≤
      (get_zircon_spectral_regions.foldl (regionStep cleanedSampleTable)
        (cleanedSampleTable, 0)).2 := by
    rw [show get_zircon_spectral_regions =
      ⟨"ν₃(SiO₄)", 990, 1020, true⟩ ::
        [ ⟨"ν₁(SiO₄)", 965, 985, true⟩, ⟨"ν₂(SiO₄)", 430, 450, true⟩,
          ⟨"External mode 1", 195, 210, false⟩,
          ⟨"External mode 2", 210, 220, false⟩,
          ⟨"External mode 3", 220, 230, false⟩,
          ⟨"External mode 4", 350, 365, true⟩ ] from rfl,
      List.foldl_cons]
    exact foldl_regionStep_snd_mono _ _ _
  have := detect_snd_ge cleanedSampleTable
  omega

/-- In the union scenario the well-behaved rows are flagged by no
criterion. -/
lemma not_flagged_union (i : ℕ) :
    ¬flaggedP unionSampleTable (i, ⟨1000, 1, 10⟩) := by
  have hfw : fwhms unionSampleTable = [10, 10, 10, 10, 70] := rfl
  rintro (h | ⟨-, h⟩ | h | h)
  · norm_num [poorFitP] at h
  · rw [hfw, q1_five, q3_five] at h
    rcases h with h | h <;> norm_num at h
  · refine not_zscoreP _ _ ?_ h
    rw [hfw, qmean_five, sampleVar_five]
    norm_num
  · norm_num [extremeP] at h

/-- The bad row of the union scenario is flagged by both the fit-quality
and the physical-implausibility criteria. -/
lemma flagged_union_both :
    poorFitP (4, (⟨1000, 1/10, 70⟩ : PeakRow)) ∧
      extremeP (4, (⟨1000, 1/10, 70⟩ : PeakRow)) :=
  ⟨by norm_num [poorFitP], by norm_num [extremeP]⟩

open Classical in
/-- The unioned flagged-label set of the union scenario is exactly {4}:
the doubly-flagged row appears once. -/
lemma out_unionSampleTable : regionOutlierLabels unionSampleTable = [4] := by
  unfold regionOutlierLabels
  rw [List.filter_congr (q := fun p : LRow => p.1 == 4) ?_]
  · decide
  · intro p hp
    fin_cases hp
    · simpa using decide_eq_false (not_flagged_union 0)
    · simpa using decide_eq_false (not_flagged_union 1)
    · simpa using decide_eq_false (not_flagged_union 2)
    · simpa using decide_eq_false (not_flagged_union 3)
    · simpa using decide_eq_true (Or.inl flagged_union_both.1)

/-- Cleaning the union scenario removes the doubly-flagged row exactly
once. -/
lemma detect_unionSampleTable :
    detect_and_remove_outliers unionSampleTable = (unionCleanedTable, 1) := by
  rw [detect_eval_nu3_only unionSampleTable [4] rfl ?hg3 ?hg1 ?hg2 ?he1 ?he2
    ?he3 ?he4 out_unionSampleTable ?hun]
  case hg3 =>
    norm_num [unionSampleTable, regionGroup, inRegion, is_peak_in_region,
      List.filter_cons]
  case hg1 =>
    norm_num [unionSampleTable, regionGroup, inRegion, is_peak_in_region,
      List.filter_cons]
  case hg2 =>
    norm_num [unionSampleTable, regionGroup, inRegion, is_peak_in_region,
      List.filter_cons]
  case he1 =>
    norm_num [unionSampleTable, regionGroup, inRegion, is_peak_in_region,
      List.filter_cons]
  case he2 =>
    norm_num [unionSampleTable, regionGroup, inRegion, is_peak_in_region,
      List.filter_cons]
  case he3 =>
    norm_num [unionSampleTable, regionGroup, inRegion, is_peak_in_region,
      List.filter_cons]
  case he4 =>
    norm_num [unionSampleTable, regionGroup, inRegion, is_peak_in_region,
      List.filter_cons]
  case hun => decide
  norm_num [unionSampleTable, unionCleanedTable, List.filter_cons]

/-- Survivors of a cleaning pass never meet the absolute criteria: a
classified survivor has `R² ≥ 0.3` and `FWHM ≤ 60`; an unclassified
survivor fails the stricter `R² < 0.5 ∨ FWHM > 50` rule. -/
lemma cleaned_absolute_criteria (T : List LRow) (p : LRow)
    (hp : p ∈ (detect_and_remove_outliers T).1) :
    (isClassified p.2.centro = true →
      ¬(p.2.r2 < 3/10) ∧ ¬(60 < p.2.fwhm)) ∧
    (isClassified p.2.centro = false → ¬unclassifiedFlag p) := by
  obtain ⟨hpT, hA, hB⟩ := (mem_detect_iff T p).mp hp
  constructor
  · intro hcl
    obtain ⟨r, hr, hin⟩ := List.any_eq_true.mp hcl
    have hgmem : p ∈ regionGroup T r := List.mem_filter.mpr ⟨hpT, hin⟩
    constructor
    · intro hpoor
      have := contains_of_flagged hgmem (Or.inl hpoor)
      rw [hA r hr] at this
      cases this
    · intro hext
      have := contains_of_flagged hgmem (Or.inr (Or.inr (Or.inr hext)))
      rw [hA r hr] at this
      cases this
  · intro hc hflag
    have := contains_of_unclassifiedFlag hpT hc hflag
    rw [hB] at this
    cases this

/-- C3 (counterexample): the cleaning pass is not idempotent.  On the
seven-row `sampleTable` the first pass removes exactly the FWHM-70 row
(flagged by the physical-implausibility criterion), but on the cleaned
table the recomputed IQR fence collapses to [10, 10] and the second pass
removes the FWHM-20 row — at least one additional row. -/
theorem cleaning_not_idempotent :
    detect_and_remove_outliers sampleTable = (cleanedSampleTable, 1) ∧
    0 < (detect_and_remove_outliers
      (detect_and_remove_outliers sampleTable).1).2 := by
  refine ⟨detect_sampleTable, ?_⟩
  rw [detect_sampleTable]
  exact second_pass_removes

/-- C3 (amended): the cleaning pass is not idempotent in general, because
the IQR and z-score criteria are recomputed on the cleaned region data;
what does hold is that a second pass can remove a row only through those
two statistical criteria: survivors of the first pass never meet the
absolute criteria (R² < 0.3, FWHM > 60, or the unclassified
R² < 0.5 ∨ FWHM > 50 rule), so every row removed by a second pass is
flagged there by the recomputed IQR or z-score criterion of its region. -/
theorem cleaning_second_pass_only_statistical (T : List LRow)
    (hnd : (T.map Prod.fst).Nodup) :
    (∀ p ∈ (detect_and_remove_outliers T).1,
      (isClassified p.2.centro = true →
        ¬(p.2.r2 < 3/10) ∧ ¬(60 < p.2.fwhm)) ∧
      (isClassified p.2.centro = false → ¬unclassifiedFlag p)) ∧
    (∀ p ∈ (detect_and_remove_outliers T).1,
      p ∉ (detect_and_remove_outliers (detect_and_remove_outliers T).1).1 →
      ∃ r ∈ get_zircon_spectral_regions,
        inRegion r p.2.centro = true ∧
        (iqrP (regionGroup (detect_and_remove_outliers T).1 r) p ∨
         zscoreP (regionGroup (detect_and_remove_outliers T).1 r) p)) := by
  refine ⟨fun p hp => cleaned_absolute_criteria T p hp, ?_⟩
  intro p hp hnot2
  have hnd' : (((detect_and_remove_outliers T).1).map Prod.fst).Nodup :=
    hnd.sublist ((detect_sublist T).map Prod.fst)
  have habs := cleaned_absolute_criteria T p hp
  by_cases hB : (unclassifiedOutlierLabels
      (detect_and_remove_outliers T).1).contains p.1 = false
  · have hA : ¬∀ r ∈ get_zircon_spectral_regions,
        (regionOutlierLabels
          (regionGroup (detect_and_remove_outliers T).1 r)).contains p.1 =
          false := by
      intro hall
      exact hnot2 ((mem_detect_iff _ p).mpr ⟨hp, hall, hB⟩)
    push_neg at hA
    obtain ⟨r, hr, hcont⟩ := hA
    simp only [Bool.not_eq_false] at hcont
    obtain ⟨q, hqg, hqflag, hq1⟩ := flagged_of_contains hcont
    have hqT' : q ∈ (detect_and_remove_outliers T).1 :=
      List.mem_of_mem_filter hqg
    have hqp : q = p := label_inj hnd' hqT' hp hq1
    subst hqp
    have hin : inRegion r q.2.centro = true := by
      simpa using List.of_mem_filter hqg
    have hcl : isClassified q.2.centro = true :=
      List.any_eq_true.mpr ⟨r, hr, hin⟩
    have habs1 := habs.1 hcl
    refine ⟨r, hr, hin, ?_⟩
    rcases hqflag with h | h | h | h
    · exact absurd h habs1.1
    · exact Or.inl h
    · exact Or.inr h
    · exact absurd h habs1.2
  · simp only [Bool.not_eq_false] at hB
    obtain ⟨q, hqT', hqc, hqf, hq1⟩ := unclassifiedFlag_of_contains hB
    have hqp : q = p := label_inj hnd' hqT' hp hq1
    subst hqp
    exact absurd hqf (habs.2 hqc)

/-- Witness for C3 (amended): on the concrete cleaned table, a surviving
classified row indeed has R² ≥ 0.3 and FWHM ≤ 60. -/
theorem cleaning_second_pass_only_statistical_witness :
    (0, (⟨1000, 1, 10⟩ : PeakRow)) ∈
      (detect_and_remove_outliers sampleTable).1 ∧
    ¬((1:ℚ) < 3/10) ∧ ¬((60:ℚ) < 10) := by
  have hmem : (0, (⟨1000, 1, 10⟩ : PeakRow)) ∈
      (detect_and_remove_outliers sampleTable).1 := by
    rw [detect_sampleTable]
    exact List.mem_cons_self _ _
  have h := (cleaning_second_pass_only_statistical sampleTable
    (by decide)).1 _ hmem
  have hcl : isClassified (1000:ℚ) = true := by decide
  exact ⟨hmem, (h.1 hcl).1, (h.1 hcl).2⟩

/-- C8: in the union scenario the row with R² = 0.1 and FWHM = 70 is
flagged by both the fit-quality and the physical-implausibility criteria,
appears exactly once in the unioned per-region flagged-label set, and the
cleaning pass removes exactly that one row; in general an unclassified
peak of a duplicate-free table is removed precisely when
`R² < 0.5 ∨ FWHM > 50`. -/
theorem outlier_union_once_and_unclassified_rule :
    poorFitP (4, (⟨1000, 1/10, 70⟩ : PeakRow)) ∧
    extremeP (4, (⟨1000, 1/10, 70⟩ : PeakRow)) ∧
    regionOutlierLabels unionSampleTable = [4] ∧
    detect_and_remove_outliers unionSampleTable = (unionCleanedTable, 1) ∧
    (∀ T : List LRow, (T.map Prod.fst).Nodup →
      ∀ p ∈ T, isClassified p.2.centro = false →
        (p ∈ (detect_and_remove_outliers T).1 ↔ ¬unclassifiedFlag p)) := by
  refine ⟨flagged_union_both.1, flagged_union_both.2, out_unionSampleTable,
    detect_unionSampleTable, ?_⟩
  intro T hnd p hpT hc
  constructor
  · intro hmem hflag
    obtain ⟨-, -, hB⟩ := (mem_detect_iff T p).mp hmem
    have := contains_of_unclassifiedFlag hpT hc hflag
    rw [hB] at this
    cases this
  · intro hnf
    apply (mem_detect_iff T p).mpr
    refine ⟨hpT, ?_, ?_⟩
    · intro r hr
      by_contra hcontra
      simp only [Bool.not_eq_false] at hcontra
      obtain ⟨q, hqg, -, hq1⟩ := flagged_of_contains hcontra
      have hq : q = p := label_inj hnd (List.mem_of_mem_filter hqg) hpT hq1
      subst hq
      have hin : inRegion r q.2.centro = true := by
        simpa using List.of_mem_filter hqg
      have : isClassified q.2.centro = true :=
        List.any_eq_true.mpr ⟨r, hr, hin⟩
      rw [hc] at this
      cases this
    · by_contra hcontra
      simp only [Bool.not_eq_false] at hcontra
      obtain ⟨q, hqT, -, hqf, hq1⟩ := unclassifiedFlag_of_contains hcontra
      have hq : q = p := label_inj hnd hqT hpT hq1
      subst hq
      exact hnf hqf

/-- Witness for C8: a lone unclassified good peak (center 100 cm⁻¹,
R² = 1, FWHM = 10) survives the cleaning pass. -/
theorem outlier_union_once_and_unclassified_rule_witness :
    (0, (⟨100, 1, 10⟩ : PeakRow)) ∈
      (detect_and_remove_outliers [(0, ⟨100, 1, 10⟩)]).1 := by
  have h := outlier_union_once_and_unclassified_rule.2.2.2.2
    [(0, ⟨100, 1, 10⟩)] (by decide) (0, ⟨100, 1, 10⟩)
    (List.mem_cons_self _ _) (by decide)
  exact h.mpr (by norm_num [unclassifiedFlag])

end Zircon
